import Mathlib

/-!
Verification development for the QuantDevelopment tick-aggregation pipeline.

Each definition is a shallow embedding of a function of the source tree,
named after it.  Prices and quantities are modelled as rationals (the
source values are decimal floats whose arithmetic on the inputs considered
here is exact), timestamps as milliseconds in `Nat`, and effectful calls
(Redis zadd / publish, SQLite insert, websocket send) as explicit effect
values or state passing.
-/

namespace SamplingEngine

/-- A normalized trade tick as produced by the ingestion layer
(`websocket_client.handle_message`): symbol, price `p`, quantity `q`,
trade time `T` in ms. -/
structure Tick where
  symbol : String
  price : ℚ
  quantity : ℚ
  timestamp : ℕ
deriving DecidableEq, Repr

/-- The 1-minute bucket of a timestamp:
`minute_ts = (timestamp // 60000) * 60000`
(src/backend/services/sampling_engine.py line 77). -/
def minuteBucket (timestamp : ℕ) : ℕ := timestamp / 60000 * 60000

/-- The in-progress bar kept in `SamplingEngine._current_bars[symbol]['1m']`.
In the source a bar dict whose fields are all `None` stands for "no bar
yet"; here absence of a `Bar` in the engine state plays that role, so a
present `Bar` always has all fields assigned (the source assigns them all
together, lines 88-94). -/
structure Bar where
  open_ : ℚ
  high : ℚ
  low : ℚ
  close : ℚ
  volume : ℚ
  trades : ℕ
  timestamp : ℕ
deriving DecidableEq, Repr

/-- The bar payload published by `_publish_bar` / `_publish_snapshots`:
the bar fields plus symbol, interval and the `final` flag. -/
structure BarMsg where
  symbol : String
  interval : String
  open_ : ℚ
  high : ℚ
  low : ℚ
  close : ℚ
  volume : ℚ
  trades : ℕ
  timestamp : ℕ
  final : Bool
deriving DecidableEq, Repr

/-- Effects the engine performs against Redis: storing a bar in the
`ohlc:{symbol}:{interval}` sorted set, and publishing a bar payload on a
pub/sub channel. -/
inductive Effect where
  | storeOhlc (symbol interval : String) (m : BarMsg)
  | publish (channel : String) (m : BarMsg)
deriving DecidableEq, Repr

/-- The bar message carried by an effect. -/
def Effect.msg : Effect → BarMsg
  | .storeOhlc _ _ m => m
  | .publish _ m => m

/-- Engine state: the `_current_bars` map restricted to the only interval
the engine tracks (`'1m'`), as an association list symbol ↦ open bar. -/
def EngineState := List (String × Bar)

/-- Look up the open bar for a symbol. -/
def lookupBar (st : EngineState) (sym : String) : Option Bar :=
  match st with
  | [] => none
  | (s, b) :: rest => if s = sym then some b else lookupBar rest sym

/-- Replace (or create) the open bar for a symbol, mirroring assignment
into `self._current_bars[symbol]['1m']`. -/
def setBar (st : EngineState) (sym : String) (b : Bar) : EngineState :=
  match st with
  | [] => [(sym, b)]
  | (s, b0) :: rest => if s = sym then (s, b) :: rest else (s, b0) :: setBar rest sym b

/-- Start a new bar from a tick (sampling_engine.py lines 88-94). -/
def newBar (t : Tick) (minute_ts : ℕ) : Bar :=
  { open_ := t.price, high := t.price, low := t.price, close := t.price
    volume := t.quantity, trades := 1, timestamp := minute_ts }

/-- Update the open bar in place with a tick of the same bucket
(sampling_engine.py lines 97-101). -/
def updateBar (b : Bar) (t : Tick) : Bar :=
  { b with high := max b.high t.price, low := min b.low t.price
           close := t.price, volume := b.volume + t.quantity, trades := b.trades + 1 }

/-- The payload `_publish_bar` / `_publish_snapshots` build from a bar. -/
def barMsg (sym interval : String) (b : Bar) (final : Bool) : BarMsg :=
  { symbol := sym, interval := interval, open_ := b.open_, high := b.high
    low := b.low, close := b.close, volume := b.volume, trades := b.trades
    timestamp := b.timestamp, final := final }

/-- `SamplingEngine._publish_bar` (lines 114-141): store the completed bar
in the Redis sorted set and publish it on channel `ohlc`, always with
`final: True`.  Failures of either call are caught in the source and do
not affect engine state; the effects here record the attempted calls. -/
def publish_bar (sym interval : String) (b : Bar) : List Effect :=
  [ .storeOhlc sym interval (barMsg sym interval b true)
  , .publish "ohlc" (barMsg sym interval b true) ]

/-- One step of `SamplingEngine._aggregate_ticks` (lines 71-103) for one
parsed tick: compute the minute bucket; if no bar is open for the symbol,
open one; if a bar is open for a different bucket, publish it (final) and
open a new bar at the tick's bucket; otherwise update the open bar. -/
def aggregate_tick (st : EngineState) (t : Tick) : EngineState × List Effect :=
  let minute_ts := minuteBucket t.timestamp
  match lookupBar st t.symbol with
  | none => (setBar st t.symbol (newBar t minute_ts), [])
  | some bar =>
    if bar.timestamp ≠ minute_ts then
      (setBar st t.symbol (newBar t minute_ts), publish_bar t.symbol "1m" bar)
    else
      (setBar st t.symbol (updateBar bar t), [])

/-- One cycle of `SamplingEngine._publish_snapshots` (lines 158-193):
publish every current open bar on channel `ohlc` with `final: False`. -/
def publish_snapshots (st : EngineState) : List Effect :=
  st.map (fun p => .publish "ohlc" (barMsg p.1 "1m" p.2 false))

/-- Events the engine reacts to: a tick delivered on `market_data`, or a
firing of the 5-second snapshot timer. -/
inductive Event where
  | tick (t : Tick)
  | snap
deriving DecidableEq, Repr

/-- Dispatch one event. -/
def step (st : EngineState) : Event → EngineState × List Effect
  | .tick t => aggregate_tick st t
  | .snap => (st, publish_snapshots st)

/-- Run the engine over an event trace, concatenating emitted effects in
order. -/
def run (st : EngineState) : List Event → EngineState × List Effect
  | [] => (st, [])
  | e :: es =>
    ((run (step st e).1 es).1, (step st e).2 ++ (run (step st e).1 es).2)

end SamplingEngine

namespace DataSampler

/-- A tick as read back from the recent-tick store by
`DataSampler.sample_symbol` (only the fields `compute_ohlc` consumes). -/
structure TickR where
  price : ℚ
  quantity : ℚ
  timestamp : ℕ
deriving DecidableEq, Repr

/-- The OHLC record `DataSampler.compute_ohlc` returns
(src/src/storage/data_sampler.py lines 129-137). -/
structure Ohlc where
  open_ : ℚ
  high : ℚ
  low : ℚ
  close : ℚ
  volume : ℚ
  tick_count : ℕ
  timestamp : ℕ
deriving DecidableEq, Repr

/-- Insert a tick into a timestamp-sorted list, after all strictly
earlier ticks and before all later-or-equal ones. -/
def insertByTs (t : TickR) : List TickR → List TickR
  | [] => [t]
  | u :: us => if u.timestamp < t.timestamp then u :: insertByTs t us else t :: u :: us

/-- Python's `sorted(ticks, key=lambda t: t["timestamp"])`
(data_sampler.py line 124).  Python's sort is stable; this insertion
sort realises the same stable-sort semantics: ticks with equal
timestamps keep their input order. -/
def sortTicks : List TickR → List TickR
  | [] => []
  | t :: ts => insertByTs t (sortTicks ts)

/-- `DataSampler.compute_ohlc(ticks, timestamp)` (lines 109-139): raise
on empty input (modelled as `none`), sort the ticks by timestamp oldest
first, then `open = prices[0]`, `high = max(prices)`, `low = min(prices)`,
`close = prices[-1]`, `volume = sum(quantities)`,
`tick_count = len(ticks)`. -/
def compute_ohlc (ticks : List TickR) (timestamp : ℕ) : Option Ohlc :=
  match ticks with
  | [] => none
  | _ :: _ =>
    match sortTicks ticks with
    | [] => none
    | s :: ss =>
      some { open_ := s.price
             high := (ss.map (fun t => t.price)).foldl max s.price
             low := (ss.map (fun t => t.price)).foldl min s.price
             close := (ss.getLastD s).price
             volume := ((s :: ss).map (fun t => t.quantity)).sum
             tick_count := ticks.length
             timestamp := timestamp }

end DataSampler

namespace WebSocketClient

/-- Outcome of one `connect()` / `connect_symbol()` attempt:
`true` = the websocket connection was established. -/
abbrev ConnOutcome := Bool

/-- The backoff delays slept after each FAILED connect attempt of the
combined-mode supervising loop `BinanceWebSocketClient.run`
(src/src/ingestion/websocket_client.py lines 126-148), given the current
`self.reconnect_delay` and the outcome of each successive connect
attempt.  On failure the loop sleeps `reconnect_delay` and then doubles
it capped at `max_reconnect_delay = 60`; a successful `connect()` resets
`self.reconnect_delay` to 1 (line 56), which the same field is read back
from on the next failure. -/
def runDelays (reconnect_delay : ℕ) : List ConnOutcome → List ℕ
  | [] => []
  | false :: rest => reconnect_delay :: runDelays (min (reconnect_delay * 2) 60) rest
  | true :: rest => runDelays 1 rest

/-- The backoff delays slept after each failed connect attempt of the
per-symbol loop `BinanceWebSocketClient._run_symbol_loop` (lines
278-293).  The loop copies `self.reconnect_delay` into a LOCAL variable
`delay` once, sleeps and doubles that local on failure, and never reads
`self.reconnect_delay` again — so the reset to 1 performed inside a
successful `connect_symbol` (line 70) has no effect on this loop's
delays. -/
def symbolLoopDelays (delay : ℕ) : List ConnOutcome → List ℕ
  | [] => []
  | false :: rest => delay :: symbolLoopDelays (min (delay * 2) 60) rest
  | true :: rest => symbolLoopDelays delay rest

/-- The local delay held by `_run_symbol_loop` after processing a list of
connect outcomes. -/
def delayAfter (delay : ℕ) (es : List ConnOutcome) : ℕ :=
  es.foldl (fun d e => if e then d else min (d * 2) 60) delay

end WebSocketClient

namespace WebSocketHandler

/-- A subscriber connection in `active_connections`
(src/src/api/websocket_handler.py line 11), identified by a number. -/
abbrev Conn := ℕ

/-- The subscriber registry.  The source keeps a Python set; the model
keeps the connections as a list (iteration order of a set is some fixed
order of its elements). -/
abbrev Registry := List Conn

/-- The send loop shared by `broadcast_tick` (lines 61-65): try
`connection.send_text(message)` for every connection in turn; a failure
is caught and the connection recorded in `disconnected`, and the loop
continues with the next connection.  `fails c = true` means sending to
`c` raises.  Returns (connections the message was delivered to,
connections whose send failed), each in iteration order. -/
def sendLoop (conns : List Conn) (fails : Conn → Bool) : List Conn × List Conn :=
  conns.foldl
    (fun acc c => if fails c then (acc.1, acc.2 ++ [c]) else (acc.1 ++ [c], acc.2))
    ([], [])

/-- `broadcast_tick(tick)` (lines 49-69): attempt the send to every
current connection, then discard every connection whose send failed from
the registry.  Returns (delivered, failed, new registry). -/
def broadcast_tick (reg : Registry) (fails : Conn → Bool) :
    List Conn × List Conn × Registry :=
  let (delivered, disconnected) := sendLoop reg fails
  (delivered, disconnected, reg.filter (fun c => ¬ c ∈ disconnected))

/-- `broadcast_alert(alert)` (lines 72-87): attempt the send to every
current connection; a failure is ignored (`except: pass`) and the
registry is left unchanged.  Returns (delivered, new registry). -/
def broadcast_alert (reg : Registry) (fails : Conn → Bool) :
    List Conn × Registry :=
  ((sendLoop reg fails).1, reg)

end WebSocketHandler

namespace DataProcessor

/-- A raw tick dict as handed to `DataProcessor.process_tick`.  A field
that is absent from the dict is `none` (the source checks presence with
`field not in tick`). -/
structure RawTick where
  symbol : Option String
  price : Option ℚ
  quantity : Option ℚ
  timestamp : Option ℕ
  processed_at : Option String
deriving DecidableEq, Repr

/-- The first of the required fields `["symbol", "price", "quantity",
"timestamp"]` missing from the tick, in the order the source checks them
(src/src/ingestion/data_processor.py lines 32-35). -/
def firstMissing (t : RawTick) : Option String :=
  if t.symbol = none then some "symbol"
  else if t.price = none then some "price"
  else if t.quantity = none then some "quantity"
  else if t.timestamp = none then some "timestamp"
  else none

/-- `DataProcessor` state: the per-symbol buffer `tick_buffer`, the ticks
published on the `tick_stream` channel, the ticks persisted to the
recent-window store via `add_tick`, and the two counters of
`processing_stats`. -/
structure ProcState where
  tick_buffer : List (String × List RawTick)
  published : List RawTick
  stored : List RawTick
  ticks_processed : ℕ
  errors : ℕ
deriving DecidableEq, Repr

/-- Append a tick to the buffer list of its symbol, creating the entry if
absent (data_processor.py lines 38-42). -/
def bufferAppend (buf : List (String × List RawTick)) (sym : String) (t : RawTick) :
    List (String × List RawTick) :=
  match buf with
  | [] => [(sym, [t])]
  | (s, ts) :: rest =>
    if s = sym then (s, ts ++ [t]) :: rest else (s, ts) :: bufferAppend rest sym t

/-- `DataProcessor.process_tick(tick)` (lines 21-54): stamp
`processed_at`, validate the required fields raising `ValueError` on the
first missing one; on a valid tick append it to the per-symbol buffer,
publish it on `tick_stream` and persist it via `add_tick` (the two calls
of `publish_tick`, whose own failures are swallowed), and increment
`ticks_processed`.  Any raised error is counted in `errors` and
re-raised; the returned `Except` is the raised/returned value. -/
def process_tick (s : ProcState) (t : RawTick) (now : String) :
    ProcState × Except String RawTick :=
  let t1 := { t with processed_at := some now }
  match firstMissing t1 with
  | some f =>
    ({ s with errors := s.errors + 1 }, .error ("Missing required field: " ++ f))
  | none =>
    match t1.symbol with
    | none => ({ s with errors := s.errors + 1 }, .error "Missing required field: symbol")
    | some sym =>
      ({ s with
          tick_buffer := bufferAppend s.tick_buffer sym t1
          published := s.published ++ [t1]
          stored := s.stored ++ [t1]
          ticks_processed := s.ticks_processed + 1 },
       .ok t1)

end DataProcessor

namespace Alerting

/-- The analytics snapshot read from the `latest_analytics` key and
passed to every rule: a JSON object of numeric metrics, modelled as an
association list. -/
abbrev Snapshot := List (String × ℚ)

/-- `dict.get(key, default)` on a snapshot. -/
def getD (d : Snapshot) (k : String) (default : ℚ) : ℚ :=
  match d with
  | [] => default
  | (k0, v) :: rest => if k0 = k then v else getD rest k default

/-- `dict.get(key)` on a snapshot (`None` when absent). -/
def getOpt (d : Snapshot) (k : String) : Option ℚ :=
  match d with
  | [] => none
  | (k0, v) :: rest => if k0 = k then some v else getOpt rest k

/-- `zscore_above_threshold(data, threshold)`
(src/src/alerting/alert_rules.py lines 31-34):
`abs(data.get("zscore", 0)) > threshold`. -/
def zscore_above_threshold (data : Snapshot) (threshold : ℚ) : Bool :=
  decide (|getD data "zscore" 0| > threshold)

/-- An `AlertRule` (alert_rules.py lines 8-27).  `condition_name` is the
`__name__` of the condition function, which `trigger_alert` records. -/
structure AlertRule where
  name : String
  condition : Snapshot → ℚ → Bool
  condition_name : String
  threshold : ℚ
  message_template : String

/-- `AlertRule.check(data)` (lines 17-23): evaluate the condition; an
exception inside it would be caught and turned into `False` (the
embedded conditions are total, so no exception arises). -/
def AlertRule.check (r : AlertRule) (data : Snapshot) : Bool :=
  r.condition data r.threshold

/-- States of a left-to-right scan of a format string: outside any
replacement field, inside a field name, or inside a format spec (after
the colon). -/
inductive FmtState where
  | text
  | fieldName (acc : String)
  | formatSpec (name : String)

/-- The replacement-field names `{name}` / `{name:spec}` appearing in a
format string, scanned left to right. -/
def templateFieldsAux : List Char → FmtState → List String
  | [], _ => []
  | c :: cs, .text =>
    if c = '\x7b' then templateFieldsAux cs (.fieldName "")
    else templateFieldsAux cs .text
  | c :: cs, .fieldName acc =>
    if c = '\x7d' then acc :: templateFieldsAux cs .text
    else if c = ':' then templateFieldsAux cs (.formatSpec acc)
    else templateFieldsAux cs (.fieldName (acc.push c))
  | c :: cs, .formatSpec name =>
    if c = '\x7d' then name :: templateFieldsAux cs .text
    else templateFieldsAux cs (.formatSpec name)

/-- The field names referenced by a format template. -/
def templateFields (s : String) : List String :=
  templateFieldsAux s.toList .text

/-- Exact text of a rational.  The source formats floats with specs such
as `.2f`; no verified property depends on the digits, so values are
rendered exactly and the format spec is ignored. -/
def renderQ (q : ℚ) : String :=
  if q.den = 1 then toString q.num else toString q.num ++ "/" ++ toString q.den

/-- Scan states for rendering a format string, carrying the output built
so far. -/
inductive RenderState where
  | text (out : String)
  | fieldName (out : String) (acc : String)
  | formatSpec (out : String) (name : String)

/-- Render a format string against a lookup of field values.  A
referenced name with no value raises `KeyError` in Python's
`str.format`, modelled as `none`; so is a string ending inside a
replacement field. -/
def renderAux (lookupV : String → Option String) :
    List Char → RenderState → Option String
  | [], .text out => some out
  | [], .fieldName _ _ => none
  | [], .formatSpec _ _ => none
  | c :: cs, .text out =>
    if c = '\x7b' then renderAux lookupV cs (.fieldName out "")
    else renderAux lookupV cs (.text (out.push c))
  | c :: cs, .fieldName out acc =>
    if c = '\x7d' then
      match lookupV acc with
      | some v => renderAux lookupV cs (.text (out ++ v))
      | none => none
    else if c = ':' then renderAux lookupV cs (.formatSpec out acc)
    else renderAux lookupV cs (.fieldName out (acc.push c))
  | c :: cs, .formatSpec out name =>
    if c = '\x7d' then
      match lookupV name with
      | some v => renderAux lookupV cs (.text (out ++ v))
      | none => none
    else renderAux lookupV cs (.formatSpec out name)

/-- `AlertRule.format_message(data)` (alert_rules.py lines 25-27):
`self.message_template.format(**data, threshold=self.threshold)`.
Referenced names resolve to the snapshot entries plus `threshold`; a
name bound by neither raises `KeyError` (`none`). -/
def format_message (r : AlertRule) (data : Snapshot) : Option String :=
  renderAux
    (fun k => if k = "threshold" then some (renderQ r.threshold)
              else (getOpt data k).map renderQ)
    r.message_template.toList (.text "")

end Alerting

namespace AlertManager

open Alerting

/-- A value of one entry of the alert dict built by
`AlertManager.trigger_alert`: a string, a number, or Python `None`. -/
inductive AValue where
  | s (v : String)
  | q (v : ℚ)
  | n (v : ℕ)
  | none
deriving DecidableEq, Repr

/-- The alert dict, with its entries in the order the source writes them
(src/src/alerting/alert_manager.py lines 71-79). -/
abbrev Alert := List (String × AValue)

/-- Key lookup in an alert dict. -/
def Alert.lookup (a : Alert) (k : String) : Option AValue :=
  match a with
  | [] => Option.none
  | (k0, v) :: rest => if k0 = k then some v else Alert.lookup rest k

/-- Text Python's f-string prints for an optional snapshot value
(`None` for an absent key). -/
def pyText : Option ℚ → String
  | Option.none => "None"
  | some v => renderQ v

/-- The `symbol` entry of the alert:
`data.get("symbol") or f"{data.get('symbol1')}-{data.get('symbol2')}"`
(line 74).  `None` and `0` are falsy, so both fall through to the
formatted pair string. -/
def alertSymbol (data : Snapshot) : AValue :=
  match getOpt data "symbol" with
  | some v =>
    if v ≠ 0 then .q v
    else .s (pyText (getOpt data "symbol1") ++ "-" ++ pyText (getOpt data "symbol2"))
  | Option.none =>
    .s (pyText (getOpt data "symbol1") ++ "-" ++ pyText (getOpt data "symbol2"))

/-- The `triggered_value` entry:
`data.get("zscore") or data.get("spread")` (line 75), with Python
truthiness (`None` and `0` falsy). -/
def triggeredValue (data : Snapshot) : AValue :=
  match getOpt data "zscore" with
  | some z =>
    if z ≠ 0 then .q z
    else match getOpt data "spread" with
         | some sp => .q sp
         | Option.none => .none
  | Option.none =>
    match getOpt data "spread" with
    | some sp => .q sp
    | Option.none => .none

/-- `AlertManager.trigger_alert(rule, data)` (lines 65-93): format the
message — a `KeyError` there propagates (modelled as `none`) before any
alert is built or stored — then build the alert dict that is persisted,
appended to the history and broadcast. -/
def trigger_alert (rule : AlertRule) (data : Snapshot) (timestamp : ℕ) :
    Option Alert :=
  match format_message rule data with
  | Option.none => Option.none
  | some msg =>
    some [ ("rule_name", .s rule.name)
         , ("rule_condition", .s rule.condition_name)
         , ("symbol", alertSymbol data)
         , ("triggered_value", triggeredValue data)
         , ("threshold", .q rule.threshold)
         , ("message", .s msg)
         , ("timestamp", .n timestamp) ]

/-- The rule loop of `AlertManager.check_all_rules` (lines 57-63): check
each rule in order and trigger the firing ones.  The whole loop runs
inside one `try`: an exception escaping `trigger_alert` aborts the loop
(remaining rules are skipped for the cycle, already-triggered alerts
stay).  Returns (alerts triggered this cycle in order, `true` when the
cycle completed without an escaping exception). -/
def checkRulesGo (data : Snapshot) (timestamp : ℕ) :
    List AlertRule → List Alert × Bool
  | [] => ([], true)
  | r :: rs =>
    if r.check data then
      match trigger_alert r data timestamp with
      | some a =>
        (a :: (checkRulesGo data timestamp rs).1, (checkRulesGo data timestamp rs).2)
      | Option.none => ([], false)
    else checkRulesGo data timestamp rs

/-- `AlertManager.check_all_rules` for a present, parsed snapshot. -/
def check_all_rules (rules : List AlertRule) (data : Snapshot) (timestamp : ℕ) :
    List Alert × Bool :=
  checkRulesGo data timestamp rules

/-- The history update inside `trigger_alert` (lines 85-87):
`alert_history.append(alert)`, then `pop(0)` once when the length
exceeds 100. -/
def historyStep (h : List Alert) (a : Alert) : List Alert :=
  let h2 := h ++ [a]
  if h2.length > 100 then h2.drop 1 else h2

/-- The alert history after a sequence of triggered alerts, starting
from the empty history of a fresh `AlertManager`. -/
def historyRun (alerts : List Alert) : List Alert :=
  alerts.foldl historyStep []

/-- The `High Z-Score` entry of `DEFAULT_RULES`
(src/src/alerting/alert_rules.py lines 69-74). -/
def highZScoreRule : AlertRule :=
  { name := "High Z-Score"
    condition := zscore_above_threshold
    condition_name := "zscore_above_threshold"
    threshold := 2
    message_template := "Z-score alert: {symbol1}-{symbol2} z-score = {zscore:.2f} (threshold: {threshold})" }

/-- A custom z-score rule built with `create_custom_rule`
(alert_rules.py lines 96-98), with the same condition and threshold as
`highZScoreRule` but a message template whose fields all resolve against
a bare `{zscore: ...}` snapshot. -/
def plainZScoreRule : AlertRule :=
  { name := "High Z-Score"
    condition := zscore_above_threshold
    condition_name := "zscore_above_threshold"
    threshold := 2
    message_template := "z-score = {zscore} (threshold: {threshold})" }

end AlertManager

namespace StrategyEngine

/-- One alert returned by `StrategyEngine.check_alerts`
(src/src/core/strategy_engine.py lines 90-136). -/
structure SAlert where
  type_ : String
  severity : String
  message : String
  value : ℚ
deriving DecidableEq, Repr

/-- `StrategyEngine.check_alerts(zscore, rsi, macd_histogram, ...)`:
a z-score alert with severity `high` when `abs(zscore) > 3` else
`medium` whenever `abs(zscore) > zscore_threshold`; RSI alerts of
severity `medium`; a MACD alert of severity `low`. -/
def check_alerts (zscore rsi macd_histogram : ℚ)
    (zscore_threshold : ℚ := 2) (rsi_oversold : ℚ := 30)
    (rsi_overbought : ℚ := 70) : List SAlert :=
  (if |zscore| > zscore_threshold then
    [{ type_ := "zscore"
       severity := if |zscore| > 3 then "high" else "medium"
       message := "Z-Score extreme: " ++ Alerting.renderQ zscore
       value := zscore }]
   else []) ++
  (if rsi < rsi_oversold then
    [{ type_ := "rsi", severity := "medium"
       message := "RSI oversold: " ++ Alerting.renderQ rsi, value := rsi }]
   else if rsi > rsi_overbought then
    [{ type_ := "rsi", severity := "medium"
       message := "RSI overbought: " ++ Alerting.renderQ rsi, value := rsi }]
   else []) ++
  (if |macd_histogram| > 0 ∧ |macd_histogram| < 1/2 then
    [{ type_ := "macd", severity := "low"
       message := "MACD crossover approaching", value := macd_histogram }]
   else [])

/-- Modelled from the spec: the ordering of the severity labels the
source uses (`low` < `medium` < `high`), to state "an Alert whose
severity is higher". -/
def severityRank : String → ℕ
  | "low" => 0
  | "medium" => 1
  | "high" => 2
  | _ => 0

end StrategyEngine

namespace Database

/-- One row of an `ohlc_{interval}` table
(src/src/storage/database.py lines 59-75). -/
structure Row where
  symbol : String
  open_ : ℚ
  high : ℚ
  low : ℚ
  close : ℚ
  volume : ℚ
  timestamp : ℕ
  tick_count : ℕ
deriving DecidableEq, Repr

/-- Rows share the key of the `UNIQUE(symbol, timestamp)` constraint. -/
def sameKey (a b : Row) : Bool :=
  a.symbol = b.symbol ∧ a.timestamp = b.timestamp

/-- `Database.insert_ohlc` (lines 129-147): `INSERT OR REPLACE` into the
interval's table under `UNIQUE(symbol, timestamp)` — SQLite deletes any
row conflicting on the key and inserts the new row. -/
def insert_ohlc (tbl : List Row) (r : Row) : List Row :=
  tbl.filter (fun x => ¬ sameKey x r) ++ [r]

end Database

namespace RedisManager

open SamplingEngine (BarMsg)

/-- One OHLC payload stored by `RedisManager.store_ohlc`; the record
stands for its JSON serialization (`json.dumps` of the dict — records
differing in any field serialize to different member strings). -/
structure OhlcPayload where
  open_ : ℚ
  high : ℚ
  low : ℚ
  close : ℚ
  volume : ℚ
  tick_count : ℕ
  timestamp : ℕ
deriving DecidableEq, Repr

/-- The `ohlc:{symbol}:{interval}` sorted set: members with their
scores.  A member occurs at most once; `zadd` of a present member
updates its score in place, `zadd` of a new member appends it. -/
abbrev ZSet := List (OhlcPayload × ℤ)

/-- `redis.zadd(key, {member: score})` for a single member. -/
def zadd (zs : ZSet) (m : OhlcPayload) (score : ℤ) : ZSet :=
  match zs with
  | [] => [(m, score)]
  | (m0, s0) :: rest =>
    if m0 = m then (m0, score) :: rest else (m0, s0) :: zadd rest m score

/-- Insert a scored member into a score-sorted list (ties after equal
scores, matching rank order of members inserted later). -/
def insertByScore (p : OhlcPayload × ℤ) : ZSet → ZSet
  | [] => [p]
  | q :: qs => if q.2 ≤ p.2 then q :: insertByScore p qs else p :: q :: qs

/-- The members of a sorted set in rank order (ascending score). -/
def byRank : ZSet → ZSet
  | [] => []
  | p :: ps => insertByScore p (byRank ps)

/-- `redis.zremrangebyrank(key, 0, -(n+1))`: keep only the `n`
highest-ranked members. -/
def zremAllButLast (zs : ZSet) (n : ℕ) : ZSet :=
  let ranked := byRank zs
  ranked.drop (ranked.length - n)

/-- `RedisManager.store_ohlc(symbol, interval, ohlc)`
(src/src/storage/redis_manager.py lines 68-77): `zadd` the serialized
payload with its `timestamp` as score, then trim to the 100
highest-ranked members. -/
def store_ohlc (zs : ZSet) (ohlc : OhlcPayload) : ZSet :=
  zremAllButLast (zadd zs ohlc ohlc.timestamp) 100

end RedisManager

section Helpers

/-- The running maximum dominates its seed. -/
lemma foldl_max_ge_init (l : List ℚ) (a : ℚ) : a ≤ l.foldl max a := by
  induction l generalizing a with
  | nil => exact le_refl a
  | cons x xs ih => exact le_trans (le_max_left a x) (ih (max a x))

/-- The running maximum dominates every element. -/
lemma foldl_max_ge_mem (l : List ℚ) (a : ℚ) : ∀ x ∈ l, x ≤ l.foldl max a := by
  induction l generalizing a with
  | nil => intro x hx; cases hx
  | cons y ys ih =>
    intro x hx
    rcases List.mem_cons.mp hx with h | h
    · subst h
      exact le_trans (le_max_right a x) (foldl_max_ge_init ys (max a x))
    · exact ih (max a y) x h

/-- The running maximum is the seed or one of the elements. -/
lemma foldl_max_mem (l : List ℚ) (a : ℚ) :
    l.foldl max a = a ∨ l.foldl max a ∈ l := by
  induction l generalizing a with
  | nil => exact Or.inl rfl
  | cons y ys ih =>
    rcases ih (max a y) with h | h
    · rcases max_choice a y with hm | hm
      · left; rw [List.foldl_cons, h, hm]
      · right; rw [List.foldl_cons, h, hm]; exact List.mem_cons_self y ys
    · right
      refine List.mem_cons_of_mem y ?_
      rw [List.foldl_cons]; exact h

/-- The running minimum is below its seed. -/
lemma foldl_min_le_init (l : List ℚ) (a : ℚ) : l.foldl min a ≤ a := by
  induction l generalizing a with
  | nil => exact le_refl a
  | cons x xs ih => exact le_trans (ih (min a x)) (min_le_left a x)

/-- The running minimum is below every element. -/
lemma foldl_min_le_mem (l : List ℚ) (a : ℚ) : ∀ x ∈ l, l.foldl min a ≤ x := by
  induction l generalizing a with
  | nil => intro x hx; cases hx
  | cons y ys ih =>
    intro x hx
    rcases List.mem_cons.mp hx with h | h
    · subst h
      exact le_trans (foldl_min_le_init ys (min a x)) (min_le_right a x)
    · exact ih (min a y) x h

/-- The running minimum is the seed or one of the elements. -/
lemma foldl_min_mem (l : List ℚ) (a : ℚ) :
    l.foldl min a = a ∨ l.foldl min a ∈ l := by
  induction l generalizing a with
  | nil => exact Or.inl rfl
  | cons y ys ih =>
    rcases ih (min a y) with h | h
    · rcases min_choice a y with hm | hm
      · left; rw [List.foldl_cons, h, hm]
      · right; rw [List.foldl_cons, h, hm]; exact List.mem_cons_self y ys
    · right
      refine List.mem_cons_of_mem y ?_
      rw [List.foldl_cons]; exact h

end Helpers

namespace SamplingEngine

/-- Looking up the symbol just set returns the bar just set. -/
lemma lookupBar_setBar_self (st : EngineState) (sym : String) (b : Bar) :
    lookupBar (setBar st sym b) sym = some b := by
  induction st with
  | nil => simp [setBar, lookupBar]
  | cons p rest ih =>
    by_cases h : p.1 = sym
    · simp [setBar, lookupBar, h]
    · simp [setBar, lookupBar, h, ih]

/-- Setting a symbol twice keeps only the second bar. -/
lemma setBar_setBar (st : EngineState) (sym : String) (b b' : Bar) :
    setBar (setBar st sym b) sym b' = setBar st sym b' := by
  induction st with
  | nil => simp [setBar]
  | cons p rest ih =>
    by_cases h : p.1 = sym
    · simp [setBar, h]
    · simp [setBar, h, ih]

/-- Re-setting the bar a symbol already holds leaves the state unchanged. -/
lemma setBar_lookup_eq (st : EngineState) (sym : String) (b : Bar)
    (h : lookupBar st sym = some b) : setBar st sym b = st := by
  induction st with
  | nil => simp [lookupBar] at h
  | cons p rest ih =>
    obtain ⟨ps, pb⟩ := p
    by_cases hp : ps = sym
    · simp [lookupBar, hp] at h
      simp [setBar, hp, ← h]
    · simp [lookupBar, hp] at h
      simp [setBar, hp, ih h]

/-- `updateBar` keeps the bucket timestamp. -/
lemma updateBar_timestamp (b : Bar) (t : Tick) :
    (updateBar b t).timestamp = b.timestamp := rfl

/-- Rollover case of `_aggregate_ticks`: with a bar open for a different
bucket, the step publishes that bar and opens a fresh one at the tick's
bucket. -/
lemma aggregate_tick_rollover (st : EngineState) (t : Tick) (bar : Bar)
    (hl : lookupBar st t.symbol = some bar)
    (hne : bar.timestamp ≠ minuteBucket t.timestamp) :
    aggregate_tick st t =
      (setBar st t.symbol (newBar t (minuteBucket t.timestamp)),
       publish_bar t.symbol "1m" bar) := by
  simp [aggregate_tick, hl, hne]

/-- Update case of `_aggregate_ticks`: a tick of the open bar's bucket
updates it in place, with no effect emitted. -/
lemma aggregate_tick_update (st : EngineState) (t : Tick) (bar : Bar)
    (hl : lookupBar st t.symbol = some bar)
    (heq : bar.timestamp = minuteBucket t.timestamp) :
    aggregate_tick st t = (setBar st t.symbol (updateBar bar t), []) := by
  simp [aggregate_tick, hl, heq]

/-- Open case of `_aggregate_ticks`: with no bar open for the symbol,
the step opens one at the tick's bucket with no effect emitted. -/
lemma aggregate_tick_open (st : EngineState) (t : Tick)
    (hl : lookupBar st t.symbol = none) :
    aggregate_tick st t =
      (setBar st t.symbol (newBar t (minuteBucket t.timestamp)), []) := by
  simp [aggregate_tick, hl]

/-- Folding same-bucket ticks into an open bar keeps `open_`. -/
lemma foldl_updateBar_open (ts : List Tick) (b : Bar) :
    (ts.foldl updateBar b).open_ = b.open_ := by
  induction ts generalizing b with
  | nil => rfl
  | cons u us ih => simpa [updateBar] using ih (updateBar b u)

/-- Folding same-bucket ticks into an open bar keeps `timestamp`. -/
lemma foldl_updateBar_timestamp (ts : List Tick) (b : Bar) :
    (ts.foldl updateBar b).timestamp = b.timestamp := by
  induction ts generalizing b with
  | nil => rfl
  | cons u us ih => simpa [updateBar] using ih (updateBar b u)

/-- Each folded tick increments `trades` once. -/
lemma foldl_updateBar_trades (ts : List Tick) (b : Bar) :
    (ts.foldl updateBar b).trades = b.trades + ts.length := by
  induction ts generalizing b with
  | nil => rfl
  | cons u us ih =>
    rw [List.foldl_cons, ih (updateBar b u)]
    simp [updateBar]
    omega

/-- Each folded tick adds its quantity to `volume`. -/
lemma foldl_updateBar_volume (ts : List Tick) (b : Bar) :
    (ts.foldl updateBar b).volume = b.volume + (ts.map (fun u => u.quantity)).sum := by
  induction ts generalizing b with
  | nil => simp
  | cons u us ih =>
    rw [List.foldl_cons, ih (updateBar b u)]
    simp [updateBar]
    ring

/-- `close` is the price of the last folded tick. -/
lemma foldl_updateBar_close (ts : List Tick) (b : Bar) :
    (ts.foldl updateBar b).close = (ts.map (fun u => u.price)).getLastD b.close := by
  induction ts generalizing b with
  | nil => rfl
  | cons u us ih =>
    rw [List.foldl_cons, ih (updateBar b u), List.map_cons, List.getLastD_cons]
    rfl

/-- `high` after the fold is the running maximum of the prices. -/
lemma foldl_updateBar_high (ts : List Tick) (b : Bar) :
    (ts.foldl updateBar b).high = (ts.map (fun u => u.price)).foldl max b.high := by
  induction ts generalizing b with
  | nil => rfl
  | cons u us ih =>
    rw [List.foldl_cons, ih (updateBar b u)]
    simp [updateBar]

/-- `low` after the fold is the running minimum of the prices. -/
lemma foldl_updateBar_low (ts : List Tick) (b : Bar) :
    (ts.foldl updateBar b).low = (ts.map (fun u => u.price)).foldl min b.low := by
  induction ts generalizing b with
  | nil => rfl
  | cons u us ih =>
    rw [List.foldl_cons, ih (updateBar b u)]
    simp [updateBar]

end SamplingEngine






namespace SamplingEngine

/-- Processing a run of ticks of the open bar's own bucket emits no
effect and folds them into the bar with `updateBar`. -/
lemma run_update_phase (ts : List Tick) (st : EngineState) (sym : String) (b : Bar)
    (hl : lookupBar st sym = some b)
    (hsym : ∀ u ∈ ts, u.symbol = sym)
    (hbkt : ∀ u ∈ ts, minuteBucket u.timestamp = b.timestamp) :
    (run st (ts.map Event.tick)).2 = [] ∧
    lookupBar (run st (ts.map Event.tick)).1 sym = some (ts.foldl updateBar b) := by
  induction ts generalizing st b with
  | nil => exact ⟨rfl, hl⟩
  | cons u us ih =>
    have hu : u.symbol = sym := hsym u (List.mem_cons_self u us)
    have hb : b.timestamp = minuteBucket u.timestamp :=
      (hbkt u (List.mem_cons_self u us)).symm
    have hstep : step st (Event.tick u) = (setBar st sym (updateBar b u), []) := by
      have := aggregate_tick_update st u b (by rw [hu]; exact hl) hb
      rw [← hu]
      simpa [step] using this
    have hrest := ih (setBar st sym (updateBar b u)) (updateBar b u)
      (lookupBar_setBar_self st sym (updateBar b u))
      (fun v hv => hsym v (List.mem_cons_of_mem u hv))
      (fun v hv => by
        rw [updateBar_timestamp]
        exact hbkt v (List.mem_cons_of_mem u hv))
    constructor
    · show ((step st (Event.tick u)).2 ++ _) = []
      rw [hstep]
      simpa [run] using hrest.1
    · show lookupBar (run (step st (Event.tick u)).1 (us.map Event.tick)).1 sym = _
      rw [hstep]
      simpa using hrest.2

/-- Processing a non-empty run of same-symbol, same-bucket ticks from a
state with no open bar for the symbol opens one bar, updates it in
place, and emits no effect. -/
lemma run_same_bucket (t : Tick) (ts : List Tick) (st : EngineState)
    (hl : lookupBar st t.symbol = none)
    (hsym : ∀ u ∈ ts, u.symbol = t.symbol)
    (hbkt : ∀ u ∈ ts, minuteBucket u.timestamp = minuteBucket t.timestamp) :
    (run st ((t :: ts).map Event.tick)).2 = [] ∧
    lookupBar (run st ((t :: ts).map Event.tick)).1 t.symbol
      = some (ts.foldl updateBar (newBar t (minuteBucket t.timestamp))) := by
  have hstep : step st (Event.tick t) =
      (setBar st t.symbol (newBar t (minuteBucket t.timestamp)), []) := by
    simpa [step] using aggregate_tick_open st t hl
  have hrest := run_update_phase ts
    (setBar st t.symbol (newBar t (minuteBucket t.timestamp)))
    t.symbol (newBar t (minuteBucket t.timestamp))
    (lookupBar_setBar_self _ _ _) hsym
    (fun v hv => by
      show minuteBucket v.timestamp = (newBar t (minuteBucket t.timestamp)).timestamp
      rw [show (newBar t (minuteBucket t.timestamp)).timestamp
            = minuteBucket t.timestamp from rfl]
      exact hbkt v hv)
  constructor
  · show ((step st (Event.tick t)).2 ++ _) = []
    rw [hstep]
    simpa [run] using hrest.1
  · show lookupBar (run (step st (Event.tick t)).1 (ts.map Event.tick)).1 t.symbol = _
    rw [hstep]
    simpa using hrest.2

end SamplingEngine

namespace DataSampler

/-- Inserting a tick no later than every list element puts it in front. -/
lemma insertByTs_all_ge (t : TickR) (us : List TickR)
    (h : ∀ u ∈ us, t.timestamp ≤ u.timestamp) : insertByTs t us = t :: us := by
  cases us with
  | nil => rfl
  | cons u us' =>
    have : ¬ u.timestamp < t.timestamp :=
      not_lt.mpr (h u (List.mem_cons_self u us'))
    simp [insertByTs, this]

/-- The stable sort leaves a list already sorted by timestamp unchanged. -/
lemma sortTicks_sorted_id (l : List TickR)
    (h : l.Pairwise (fun a b => a.timestamp ≤ b.timestamp)) : sortTicks l = l := by
  induction l with
  | nil => rfl
  | cons u us ih =>
    rcases List.pairwise_cons.mp h with ⟨hu, hus⟩
    rw [sortTicks, ih hus]
    exact insertByTs_all_ge u us hu

end DataSampler

/-- C1 (amended): for every non-empty same-symbol, same-bucket tick
sequence, the push-driven `SamplingEngine` produces a bar with
open = first arrival price, high = max price, low = min price,
close = last arrival price, volume = sum of quantities and
tick count = number of ticks, emitting nothing; `DataSampler.compute_ohlc`
produces the same OHLCV shape but with open/close taken in timestamp
order, which coincides with arrival order exactly when the input arrives
sorted by timestamp (as hypothesised here). -/
theorem ohlcv_bar_aggregation :
    (∀ (t : SamplingEngine.Tick) (ts : List SamplingEngine.Tick),
      (∀ u ∈ ts, u.symbol = t.symbol) →
      (∀ u ∈ ts, SamplingEngine.minuteBucket u.timestamp
          = SamplingEngine.minuteBucket t.timestamp) →
      (SamplingEngine.run [] ((t :: ts).map SamplingEngine.Event.tick)).2 = [] ∧
      ∃ B, SamplingEngine.lookupBar
            (SamplingEngine.run [] ((t :: ts).map SamplingEngine.Event.tick)).1
            t.symbol = some B ∧
        B.timestamp = SamplingEngine.minuteBucket t.timestamp ∧
        B.open_ = t.price ∧
        B.close = ((t :: ts).map (fun u => u.price)).getLastD 0 ∧
        B.high ∈ (t :: ts).map (fun u => u.price) ∧
        (∀ u ∈ t :: ts, u.price ≤ B.high) ∧
        B.low ∈ (t :: ts).map (fun u => u.price) ∧
        (∀ u ∈ t :: ts, B.low ≤ u.price) ∧
        B.volume = ((t :: ts).map (fun u => u.quantity)).sum ∧
        B.trades = (t :: ts).length) ∧
    (∀ (now : ℕ) (u : DataSampler.TickR) (us : List DataSampler.TickR),
      (u :: us).Pairwise (fun a b => a.timestamp ≤ b.timestamp) →
      ∃ o, DataSampler.compute_ohlc (u :: us) now = some o ∧
        o.open_ = u.price ∧
        o.close = (us.getLastD u).price ∧
        o.high ∈ (u :: us).map (fun v => v.price) ∧
        (∀ v ∈ u :: us, v.price ≤ o.high) ∧
        o.low ∈ (u :: us).map (fun v => v.price) ∧
        (∀ v ∈ u :: us, o.low ≤ v.price) ∧
        o.volume = ((u :: us).map (fun v => v.quantity)).sum ∧
        o.tick_count = (u :: us).length ∧
        o.timestamp = now) := by
  constructor
  · intro t ts hsym hbkt
    have hinit : SamplingEngine.lookupBar [] t.symbol = none := rfl
    obtain ⟨heff, hlook⟩ := SamplingEngine.run_same_bucket t ts [] hinit hsym hbkt
    refine ⟨heff, _, hlook, ?_, ?_, ?_, ?_, ?_, ?_, ?_, ?_, ?_⟩
    · rw [SamplingEngine.foldl_updateBar_timestamp]; rfl
    · rw [SamplingEngine.foldl_updateBar_open]; rfl
    · rw [SamplingEngine.foldl_updateBar_close, List.map_cons, List.getLastD_cons]; rfl
    · rw [SamplingEngine.foldl_updateBar_high]
      rcases foldl_max_mem (ts.map (fun u => u.price))
          (SamplingEngine.newBar t (SamplingEngine.minuteBucket t.timestamp)).high with h | h
      · rw [h]; exact List.mem_cons_self _ _
      · exact List.mem_cons_of_mem _ h
    · intro u hu
      rw [SamplingEngine.foldl_updateBar_high]
      rcases List.mem_cons.mp hu with h | h
      · rw [h]
        exact foldl_max_ge_init (ts.map (fun v => v.price)) _
      · exact foldl_max_ge_mem _ _ u.price (List.mem_map_of_mem (fun v => v.price) h)
    · rw [SamplingEngine.foldl_updateBar_low]
      rcases foldl_min_mem (ts.map (fun u => u.price))
          (SamplingEngine.newBar t (SamplingEngine.minuteBucket t.timestamp)).low with h | h
      · rw [h]; exact List.mem_cons_self _ _
      · exact List.mem_cons_of_mem _ h
    · intro u hu
      rw [SamplingEngine.foldl_updateBar_low]
      rcases List.mem_cons.mp hu with h | h
      · rw [h]
        exact foldl_min_le_init (ts.map (fun v => v.price)) _
      · exact foldl_min_le_mem _ _ u.price (List.mem_map_of_mem (fun v => v.price) h)
    · rw [SamplingEngine.foldl_updateBar_volume, List.map_cons, List.sum_cons]
      rfl
    · rw [SamplingEngine.foldl_updateBar_trades, List.length_cons]
      show 1 + ts.length = ts.length + 1
      omega
  · intro now u us hsorted
    have hsort : DataSampler.sortTicks (u :: us) = u :: us :=
      DataSampler.sortTicks_sorted_id (u :: us) hsorted
    have hco : DataSampler.compute_ohlc (u :: us) now =
        some { open_ := u.price
               high := (us.map (fun v => v.price)).foldl max u.price
               low := (us.map (fun v => v.price)).foldl min u.price
               close := (us.getLastD u).price
               volume := ((u :: us).map (fun v => v.quantity)).sum
               tick_count := (u :: us).length
               timestamp := now } := by
      show DataSampler.compute_ohlc (u :: us) now = _
      rw [DataSampler.compute_ohlc, hsort]
    refine ⟨_, hco, rfl, rfl, ?_, ?_, ?_, ?_, rfl, rfl, rfl⟩
    · rcases foldl_max_mem (us.map (fun v => v.price)) u.price with h | h
      · rw [h]; exact List.mem_cons_self _ _
      · exact List.mem_cons_of_mem _ h
    · intro v hv
      rcases List.mem_cons.mp hv with h | h
      · rw [h]
        exact foldl_max_ge_init (us.map (fun w => w.price)) _
      · exact foldl_max_ge_mem _ _ v.price (List.mem_map_of_mem (fun w => w.price) h)
    · rcases foldl_min_mem (us.map (fun v => v.price)) u.price with h | h
      · rw [h]; exact List.mem_cons_self _ _
      · exact List.mem_cons_of_mem _ h
    · intro v hv
      rcases List.mem_cons.mp hv with h | h
      · rw [h]
        exact foldl_min_le_init (us.map (fun w => w.price)) _
      · exact foldl_min_le_mem _ _ v.price (List.mem_map_of_mem (fun w => w.price) h)

/-- C1 witness: Scenario A — ticks (100,1), (105,2), (98,1) in one
1-minute bucket for symbol X produce the bar
{open: 100, high: 105, low: 98, close: 98, volume: 4, tick_count: 3}
and no published effect. -/
theorem ohlcv_bar_aggregation_witness :
    (∀ u ∈ [SamplingEngine.Tick.mk "X" 105 2 60001, SamplingEngine.Tick.mk "X" 98 1 60002],
      u.symbol = (SamplingEngine.Tick.mk "X" 100 1 60000).symbol) ∧
    (∀ u ∈ [SamplingEngine.Tick.mk "X" 105 2 60001, SamplingEngine.Tick.mk "X" 98 1 60002],
      SamplingEngine.minuteBucket u.timestamp
        = SamplingEngine.minuteBucket (SamplingEngine.Tick.mk "X" 100 1 60000).timestamp) ∧
    (SamplingEngine.run []
        (([SamplingEngine.Tick.mk "X" 100 1 60000, SamplingEngine.Tick.mk "X" 105 2 60001,
           SamplingEngine.Tick.mk "X" 98 1 60002]).map SamplingEngine.Event.tick)).2 = [] ∧
    ∃ B, SamplingEngine.lookupBar
          (SamplingEngine.run []
            (([SamplingEngine.Tick.mk "X" 100 1 60000, SamplingEngine.Tick.mk "X" 105 2 60001,
               SamplingEngine.Tick.mk "X" 98 1 60002]).map SamplingEngine.Event.tick)).1
          "X" = some B ∧
      B.timestamp = 60000 ∧ B.open_ = 100 ∧ B.close = 98 ∧
      B.high = 105 ∧ B.low = 98 ∧ B.volume = 4 ∧ B.trades = 3 := by
  refine ⟨by decide, by decide,
    (ohlcv_bar_aggregation.1 (SamplingEngine.Tick.mk "X" 100 1 60000)
      [SamplingEngine.Tick.mk "X" 105 2 60001, SamplingEngine.Tick.mk "X" 98 1 60002]
      (by decide) (by decide)).1, ?_⟩
  refine ⟨{ open_ := 100, high := 105, low := 98, close := 98,
            volume := 4, trades := 3, timestamp := 60000 },
          ?_, rfl, rfl, rfl, rfl, rfl, rfl, rfl⟩
  norm_num [SamplingEngine.run, SamplingEngine.step, SamplingEngine.aggregate_tick,
    SamplingEngine.lookupBar, SamplingEngine.setBar, SamplingEngine.newBar,
    SamplingEngine.updateBar, SamplingEngine.minuteBucket]

/-- C1 counterexample: two ticks of the same 1-minute bucket arriving in
non-chronological order — (price 10, ts 61000) then (price 20, ts 60500).
`DataSampler.compute_ohlc` sorts by timestamp before reading `prices[0]`,
so the resulting open is 20, the price of the SECOND tick in arrival
order, not 10 as the claim's "first tick in arrival order" requires
(and close is 10, not the last-arrived price 20). -/
theorem compute_ohlc_arrival_order_counterexample :
    SamplingEngine.minuteBucket 61000 = 60000 ∧
    SamplingEngine.minuteBucket 60500 = 60000 ∧
    DataSampler.compute_ohlc
        [DataSampler.TickR.mk 10 1 61000, DataSampler.TickR.mk 20 1 60500] 61000 =
      some { open_ := 20, high := 20, low := 10, close := 10,
             volume := 2, tick_count := 2, timestamp := 61000 } ∧
    ([DataSampler.TickR.mk 10 1 61000, DataSampler.TickR.mk 20 1 60500].map
        (fun v => v.price)).headD 0 = 10 ∧
    (20 : ℚ) ≠ 10 := by
  refine ⟨rfl, rfl, ?_, rfl, by norm_num⟩
  norm_num [DataSampler.compute_ohlc, DataSampler.sortTicks, DataSampler.insertByTs]

/-- C2: when `_aggregate_ticks` processes a tick whose 1-minute bucket
differs from the bucket of the currently open bar for its symbol, that
step (i) emits exactly the store-to-Redis and publish-on-ohlc effects of
the old bar, both with `final: true`, and (ii) leaves a freshly opened
bar at the tick's bucket for the symbol; moreover (iii) across every
event, a bar that is still open after the step is never the bar of a
`final: true` message of that step — an open bar is only ever broadcast
with `final: false` until its own rollover. -/
theorem rollover_publishes_final_before_opening :
    (∀ (st : SamplingEngine.EngineState) (t : SamplingEngine.Tick)
       (bar : SamplingEngine.Bar),
      SamplingEngine.lookupBar st t.symbol = some bar →
      bar.timestamp ≠ SamplingEngine.minuteBucket t.timestamp →
      (SamplingEngine.aggregate_tick st t).2 =
        [ SamplingEngine.Effect.storeOhlc t.symbol "1m"
            (SamplingEngine.barMsg t.symbol "1m" bar true)
        , SamplingEngine.Effect.publish "ohlc"
            (SamplingEngine.barMsg t.symbol "1m" bar true) ] ∧
      (∀ e ∈ (SamplingEngine.aggregate_tick st t).2,
        (SamplingEngine.Effect.msg e).final = true ∧
        (SamplingEngine.Effect.msg e).timestamp = bar.timestamp) ∧
      SamplingEngine.lookupBar (SamplingEngine.aggregate_tick st t).1 t.symbol =
        some (SamplingEngine.newBar t (SamplingEngine.minuteBucket t.timestamp)) ∧
      (SamplingEngine.newBar t (SamplingEngine.minuteBucket t.timestamp)).timestamp =
        SamplingEngine.minuteBucket t.timestamp) ∧
    (∀ (st : SamplingEngine.EngineState) (ev : SamplingEngine.Event)
       (e : SamplingEngine.Effect),
      e ∈ (SamplingEngine.step st ev).2 →
      (SamplingEngine.Effect.msg e).final = true →
      ∀ b', SamplingEngine.lookupBar (SamplingEngine.step st ev).1
              (SamplingEngine.Effect.msg e).symbol = some b' →
        b'.timestamp ≠ (SamplingEngine.Effect.msg e).timestamp) := by
  constructor
  · intro st t bar hl hne
    rw [SamplingEngine.aggregate_tick_rollover st t bar hl hne]
    refine ⟨rfl, ?_, SamplingEngine.lookupBar_setBar_self _ _ _, rfl⟩
    intro e he
    rcases List.mem_cons.mp he with h | h
    · rw [h]; exact ⟨rfl, rfl⟩
    · rcases List.mem_cons.mp h with h2 | h2
      · rw [h2]; exact ⟨rfl, rfl⟩
      · cases h2
  · intro st ev e he hfin b' hb'
    cases ev with
    | snap =>
      exfalso
      rcases List.mem_map.mp he with ⟨p, _, hpe⟩
      rw [← hpe] at hfin
      simp [SamplingEngine.Effect.msg, SamplingEngine.barMsg] at hfin
    | tick t =>
      cases hlk : SamplingEngine.lookupBar st t.symbol with
      | none =>
        rw [show SamplingEngine.step st (SamplingEngine.Event.tick t)
              = SamplingEngine.aggregate_tick st t from rfl,
            SamplingEngine.aggregate_tick_open st t hlk] at he
        cases he
      | some bar =>
        by_cases hts : bar.timestamp = SamplingEngine.minuteBucket t.timestamp
        · rw [show SamplingEngine.step st (SamplingEngine.Event.tick t)
                = SamplingEngine.aggregate_tick st t from rfl,
              SamplingEngine.aggregate_tick_update st t bar hlk hts] at he
          cases he
        · rw [show SamplingEngine.step st (SamplingEngine.Event.tick t)
                = SamplingEngine.aggregate_tick st t from rfl,
              SamplingEngine.aggregate_tick_rollover st t bar hlk hts] at he hb'
          have hmsg : SamplingEngine.Effect.msg e =
              SamplingEngine.barMsg t.symbol "1m" bar true := by
            rcases List.mem_cons.mp he with h | h
            · rw [h]; rfl
            · rcases List.mem_cons.mp h with h2 | h2
              · rw [h2]; rfl
              · cases h2
          rw [hmsg] at hb' ⊢
          have hsym : (SamplingEngine.barMsg t.symbol "1m" bar true).symbol
              = t.symbol := rfl
          rw [hsym] at hb'
          rw [SamplingEngine.lookupBar_setBar_self] at hb'
          have hb'' : b' = SamplingEngine.newBar t (SamplingEngine.minuteBucket t.timestamp) :=
            (Option.some_injective _ hb').symm
          rw [hb'']
          show SamplingEngine.minuteBucket t.timestamp ≠ bar.timestamp
          exact fun h => hts h.symm

/-- C2 witness: an open bar at bucket 60000 for X, hit by a tick of
bucket 120000: the step emits exactly the old bar's two `final: true`
effects and the open bar becomes a fresh one at bucket 120000. -/
theorem rollover_publishes_final_before_opening_witness :
    (SamplingEngine.lookupBar
        [("X", SamplingEngine.Bar.mk 100 105 98 98 4 3 60000)]
        (SamplingEngine.Tick.mk "X" 101 2 120000).symbol =
      some (SamplingEngine.Bar.mk 100 105 98 98 4 3 60000)) ∧
    ((SamplingEngine.Bar.mk 100 105 98 98 4 3 60000).timestamp ≠
      SamplingEngine.minuteBucket (SamplingEngine.Tick.mk "X" 101 2 120000).timestamp) ∧
    ((SamplingEngine.aggregate_tick
        [("X", SamplingEngine.Bar.mk 100 105 98 98 4 3 60000)]
        (SamplingEngine.Tick.mk "X" 101 2 120000)).2 =
      [ SamplingEngine.Effect.storeOhlc "X" "1m"
          (SamplingEngine.barMsg "X" "1m" (SamplingEngine.Bar.mk 100 105 98 98 4 3 60000) true)
      , SamplingEngine.Effect.publish "ohlc"
          (SamplingEngine.barMsg "X" "1m" (SamplingEngine.Bar.mk 100 105 98 98 4 3 60000) true) ]) ∧
    SamplingEngine.lookupBar
      (SamplingEngine.aggregate_tick
        [("X", SamplingEngine.Bar.mk 100 105 98 98 4 3 60000)]
        (SamplingEngine.Tick.mk "X" 101 2 120000)).1 "X" =
      some (SamplingEngine.newBar (SamplingEngine.Tick.mk "X" 101 2 120000) 120000) := by
  have h := rollover_publishes_final_before_opening.1
    [("X", SamplingEngine.Bar.mk 100 105 98 98 4 3 60000)]
    (SamplingEngine.Tick.mk "X" 101 2 120000)
    (SamplingEngine.Bar.mk 100 105 98 98 4 3 60000)
    rfl (by decide)
  exact ⟨rfl, by decide, h.1, h.2.2.1⟩

/-- C4 counterexample: the engine has an open bar for X at bucket 120000
when a late tick of the strictly earlier bucket 60000 (ts 60001)
arrives.  The claim requires the tick to be dropped: no bar modified, no
bar opened, nothing emitted final.  Instead `_aggregate_ticks` treats it
as a rollover: it emits the open 120000 bar with `final: true` and opens
a NEW bar at the late bucket 60000 seeded from the late tick. -/
theorem late_tick_counterexample :
    SamplingEngine.minuteBucket 60001 = 60000 ∧
    (60000 : ℕ) < 120000 ∧
    (SamplingEngine.aggregate_tick
        [("X", SamplingEngine.Bar.mk 5 5 5 5 1 1 120000)]
        (SamplingEngine.Tick.mk "X" 7 1 60001)).2 ≠ [] ∧
    ((SamplingEngine.aggregate_tick
        [("X", SamplingEngine.Bar.mk 5 5 5 5 1 1 120000)]
        (SamplingEngine.Tick.mk "X" 7 1 60001)).2.map
      (fun e => (SamplingEngine.Effect.msg e).final)) = [true, true] ∧
    SamplingEngine.lookupBar
      (SamplingEngine.aggregate_tick
        [("X", SamplingEngine.Bar.mk 5 5 5 5 1 1 120000)]
        (SamplingEngine.Tick.mk "X" 7 1 60001)).1 "X" =
      some (SamplingEngine.Bar.mk 7 7 7 7 1 1 60000) := by
  refine ⟨rfl, by norm_num, by decide, by decide, by decide⟩

/-- C4 (amended): a tick whose bucket is strictly earlier than the open
bar's bucket is NOT dropped — `_aggregate_ticks` handles it exactly like
any bucket change: the open bar is emitted with `final: true` (stored
and published) and a new bar is opened at the late tick's bucket. -/
theorem late_tick_reopens_old_bucket :
    ∀ (st : SamplingEngine.EngineState) (t : SamplingEngine.Tick)
      (bar : SamplingEngine.Bar),
      SamplingEngine.lookupBar st t.symbol = some bar →
      SamplingEngine.minuteBucket t.timestamp < bar.timestamp →
      (SamplingEngine.aggregate_tick st t).2 =
        SamplingEngine.publish_bar t.symbol "1m" bar ∧
      (∀ e ∈ (SamplingEngine.aggregate_tick st t).2,
        (SamplingEngine.Effect.msg e).final = true) ∧
      SamplingEngine.lookupBar (SamplingEngine.aggregate_tick st t).1 t.symbol =
        some (SamplingEngine.newBar t (SamplingEngine.minuteBucket t.timestamp)) := by
  intro st t bar hl hlt
  have hne : bar.timestamp ≠ SamplingEngine.minuteBucket t.timestamp :=
    fun h => absurd (h ▸ hlt) (lt_irrefl _)
  rw [SamplingEngine.aggregate_tick_rollover st t bar hl hne]
  refine ⟨rfl, ?_, SamplingEngine.lookupBar_setBar_self _ _ _⟩
  intro e he
  rcases List.mem_cons.mp he with h | h
  · rw [h]; rfl
  · rcases List.mem_cons.mp h with h2 | h2
    · rw [h2]; rfl
    · cases h2

/-- C4 witness: the amended behaviour at the counterexample's input —
the 120000 bar goes out final and a new 60000 bar opens. -/
theorem late_tick_reopens_old_bucket_witness :
    (SamplingEngine.lookupBar
        [("X", SamplingEngine.Bar.mk 5 5 5 5 1 1 120000)]
        (SamplingEngine.Tick.mk "X" 7 1 60001).symbol =
      some (SamplingEngine.Bar.mk 5 5 5 5 1 1 120000)) ∧
    (SamplingEngine.minuteBucket (SamplingEngine.Tick.mk "X" 7 1 60001).timestamp <
      (SamplingEngine.Bar.mk 5 5 5 5 1 1 120000).timestamp) ∧
    ((SamplingEngine.aggregate_tick
        [("X", SamplingEngine.Bar.mk 5 5 5 5 1 1 120000)]
        (SamplingEngine.Tick.mk "X" 7 1 60001)).2 =
      SamplingEngine.publish_bar "X" "1m" (SamplingEngine.Bar.mk 5 5 5 5 1 1 120000)) ∧
    SamplingEngine.lookupBar
      (SamplingEngine.aggregate_tick
        [("X", SamplingEngine.Bar.mk 5 5 5 5 1 1 120000)]
        (SamplingEngine.Tick.mk "X" 7 1 60001)).1 "X" =
      some (SamplingEngine.newBar (SamplingEngine.Tick.mk "X" 7 1 60001) 60000) := by
  have h := late_tick_reopens_old_bucket
    [("X", SamplingEngine.Bar.mk 5 5 5 5 1 1 120000)]
    (SamplingEngine.Tick.mk "X" 7 1 60001)
    (SamplingEngine.Bar.mk 5 5 5 5 1 1 120000)
    rfl (by decide)
  exact ⟨rfl, by decide, h.1, h.2.2⟩

/-- C10: a `final: true` bar message is emitted only by a tick step whose
tick's bucket differs from the open bar's bucket, and it is the old
bar's message; a snapshot step emits only `final: false` messages; hence
over any trace consisting solely of snapshot-timer firings (no further
tick), no `final: true` message is ever emitted. -/
theorem final_only_on_tick_rollover :
    (∀ (st : SamplingEngine.EngineState) (e : SamplingEngine.Effect),
      e ∈ SamplingEngine.publish_snapshots st →
      (SamplingEngine.Effect.msg e).final = false) ∧
    (∀ (st : SamplingEngine.EngineState) (ev : SamplingEngine.Event)
       (e : SamplingEngine.Effect),
      e ∈ (SamplingEngine.step st ev).2 →
      (SamplingEngine.Effect.msg e).final = true →
      ∃ t bar, ev = SamplingEngine.Event.tick t ∧
        SamplingEngine.lookupBar st t.symbol = some bar ∧
        bar.timestamp ≠ SamplingEngine.minuteBucket t.timestamp ∧
        SamplingEngine.Effect.msg e = SamplingEngine.barMsg t.symbol "1m" bar true) ∧
    (∀ (st : SamplingEngine.EngineState) (evs : List SamplingEngine.Event),
      (∀ ev ∈ evs, ev = SamplingEngine.Event.snap) →
      ∀ e ∈ (SamplingEngine.run st evs).2,
        (SamplingEngine.Effect.msg e).final = false) := by
  have hsnap : ∀ (st : SamplingEngine.EngineState) (e : SamplingEngine.Effect),
      e ∈ SamplingEngine.publish_snapshots st →
      (SamplingEngine.Effect.msg e).final = false := by
    intro st e he
    rcases List.mem_map.mp he with ⟨p, _, hpe⟩
    rw [← hpe]
    rfl
  refine ⟨hsnap, ?_, ?_⟩
  · intro st ev e he hfin
    cases ev with
    | snap =>
      exact absurd hfin (by rw [hsnap st e he]; exact Bool.false_ne_true)
    | tick t =>
      cases hlk : SamplingEngine.lookupBar st t.symbol with
      | none =>
        rw [show SamplingEngine.step st (SamplingEngine.Event.tick t)
              = SamplingEngine.aggregate_tick st t from rfl,
            SamplingEngine.aggregate_tick_open st t hlk] at he
        cases he
      | some bar =>
        by_cases hts : bar.timestamp = SamplingEngine.minuteBucket t.timestamp
        · rw [show SamplingEngine.step st (SamplingEngine.Event.tick t)
                = SamplingEngine.aggregate_tick st t from rfl,
              SamplingEngine.aggregate_tick_update st t bar hlk hts] at he
          cases he
        · refine ⟨t, bar, rfl, hlk, hts, ?_⟩
          rw [show SamplingEngine.step st (SamplingEngine.Event.tick t)
                = SamplingEngine.aggregate_tick st t from rfl,
              SamplingEngine.aggregate_tick_rollover st t bar hlk hts] at he
          rcases List.mem_cons.mp he with h | h
          · rw [h]; rfl
          · rcases List.mem_cons.mp h with h2 | h2
            · rw [h2]; rfl
            · cases h2
  · intro st evs hall
    induction evs generalizing st with
    | nil => intro e he; cases he
    | cons ev evs ih =>
      intro e he
      have hev : ev = SamplingEngine.Event.snap := hall ev (List.mem_cons_self _ _)
      subst hev
      rcases List.mem_append.mp he with h | h
      · exact hsnap st e h
      · exact ih st (fun v hv => hall v (List.mem_cons_of_mem _ hv)) e h

/-- C10 witness: a lone snapshot firing over a state with an open bar
publishes that bar with `final: false` only. -/
theorem final_only_on_tick_rollover_witness :
    (∀ ev ∈ [SamplingEngine.Event.snap], ev = SamplingEngine.Event.snap) ∧
    ∀ e ∈ (SamplingEngine.run
        [("X", SamplingEngine.Bar.mk 5 5 5 5 1 1 60000)]
        [SamplingEngine.Event.snap]).2,
      (SamplingEngine.Effect.msg e).final = false := by
  exact ⟨by decide,
    final_only_on_tick_rollover.2.2
      [("X", SamplingEngine.Bar.mk 5 5 5 5 1 1 60000)]
      [SamplingEngine.Event.snap] (by decide)⟩

namespace WebSocketClient

/-- Doubling a capped delay and re-capping equals capping the doubled
uncapped delay. -/
lemma cap_double (d k : ℕ) :
    min (min (d * 2) 60 * 2 ^ k) 60 = min (d * 2 ^ (k + 1)) 60 := by
  rcases le_or_lt (d * 2) 60 with h | h
  · rw [min_eq_left h]
    have he : d * 2 * 2 ^ k = d * 2 ^ (k + 1) := by ring
    rw [he]
  · rw [min_eq_right (le_of_lt h)]
    have h1 : (60 : ℕ) ≤ 60 * 2 ^ k :=
      Nat.le_mul_of_pos_right 60 (Nat.pos_pow_of_pos k (by norm_num))
    rw [min_eq_right h1]
    have h2 : (60 : ℕ) ≤ d * 2 ^ (k + 1) := by
      have he : d * 2 ^ (k + 1) = d * 2 * 2 ^ k := by ring
      rw [he]
      calc (60 : ℕ) ≤ d * 2 := le_of_lt h
        _ ≤ d * 2 * 2 ^ k :=
          Nat.le_mul_of_pos_right _ (Nat.pos_pow_of_pos k (by norm_num))
    rw [min_eq_right h2]

/-- On an unbroken failure streak the combined-mode delays are the
doubling sequence from the current delay, capped at 60. -/
lemma runDelays_replicate (n d : ℕ) (hd : d ≤ 60) :
    runDelays d (List.replicate n false) =
      (List.range n).map (fun k => min (d * 2 ^ k) 60) := by
  induction n generalizing d with
  | zero => rfl
  | succ n ih =>
    rw [List.replicate_succ, List.range_succ_eq_map]
    show d :: runDelays (min (d * 2) 60) (List.replicate n false) = _
    rw [ih (min (d * 2) 60) (min_le_right _ _), List.map_cons, List.map_map]
    congr 1
    · have : min (d * 2 ^ 0) 60 = d := by
        rw [pow_zero, mul_one, min_eq_left hd]
      rw [this]
    · refine List.map_congr_left (fun k hk => ?_)
      show min (min (d * 2) 60 * 2 ^ k) 60 = min (d * 2 ^ (k + 1)) 60
      exact cap_double d k

/-- Same streak shape for the per-symbol loop (no success occurs, so the
missing reset cannot be observed). -/
lemma symbolLoopDelays_replicate (n d : ℕ) (hd : d ≤ 60) :
    symbolLoopDelays d (List.replicate n false) =
      (List.range n).map (fun k => min (d * 2 ^ k) 60) := by
  induction n generalizing d with
  | zero => rfl
  | succ n ih =>
    rw [List.replicate_succ, List.range_succ_eq_map]
    show d :: symbolLoopDelays (min (d * 2) 60) (List.replicate n false) = _
    rw [ih (min (d * 2) 60) (min_le_right _ _), List.map_cons, List.map_map]
    congr 1
    · have : min (d * 2 ^ 0) 60 = d := by
        rw [pow_zero, mul_one, min_eq_left hd]
      rw [this]
    · refine List.map_congr_left (fun k hk => ?_)
      exact cap_double d k

end WebSocketClient

/-- C3 (amended): in both modes the delays double after each failure and
never exceed 60s, and an unbroken failure streak from a fresh client is
1, 2, 4, ... capped at 60.  In COMBINED mode a successful connect resets
the sequence, so the delays after a success are those of a fresh start
(Scenario C: fail, fail, fail, success, fail sleeps 1, 2, 4, 1).  In
PER-SYMBOL mode the loop's local delay is never reset by a success: the
delays after a success continue from `delayAfter` of the prefix, the
delay accumulated before the success. -/
theorem reconnect_backoff_delays :
    (∀ n, WebSocketClient.runDelays 1 (List.replicate n false) =
      (List.range n).map (fun k => min (2 ^ k) 60)) ∧
    (∀ n, WebSocketClient.symbolLoopDelays 1 (List.replicate n false) =
      (List.range n).map (fun k => min (2 ^ k) 60)) ∧
    (∀ (d : ℕ) (es : List Bool), d ≤ 60 →
      (∀ x ∈ WebSocketClient.runDelays d es, x ≤ 60) ∧
      (∀ x ∈ WebSocketClient.symbolLoopDelays d es, x ≤ 60)) ∧
    (∀ (d : ℕ) (es es' : List Bool),
      WebSocketClient.runDelays d (es ++ true :: es') =
        WebSocketClient.runDelays d es ++ WebSocketClient.runDelays 1 es') ∧
    (∀ (d : ℕ) (es es' : List Bool),
      WebSocketClient.symbolLoopDelays d (es ++ true :: es') =
        WebSocketClient.symbolLoopDelays d es ++
        WebSocketClient.symbolLoopDelays (WebSocketClient.delayAfter d (es ++ [true])) es') ∧
    WebSocketClient.runDelays 1 [false, false, false, true, false] = [1, 2, 4, 1] := by
  refine ⟨?_, ?_, ?_, ?_, ?_, by decide⟩
  · intro n
    have h := WebSocketClient.runDelays_replicate n 1 (by norm_num)
    simpa using h
  · intro n
    have h := WebSocketClient.symbolLoopDelays_replicate n 1 (by norm_num)
    simpa using h
  · intro d es
    induction es generalizing d with
    | nil => intro hd; exact ⟨fun x hx => absurd hx (List.not_mem_nil x),
                             fun x hx => absurd hx (List.not_mem_nil x)⟩
    | cons e es ih =>
      intro hd
      cases e with
      | false =>
        constructor
        · intro x hx
          rcases List.mem_cons.mp hx with h | h
          · rw [h]; exact hd
          · exact (ih (min (d * 2) 60) (min_le_right _ _)).1 x h
        · intro x hx
          rcases List.mem_cons.mp hx with h | h
          · rw [h]; exact hd
          · exact (ih (min (d * 2) 60) (min_le_right _ _)).2 x h
      | true =>
        constructor
        · intro x hx
          exact (ih 1 (by norm_num)).1 x hx
        · intro x hx
          exact (ih d hd).2 x hx
  · intro d es es'
    induction es generalizing d with
    | nil => rfl
    | cons e es ih =>
      cases e with
      | false =>
        show d :: WebSocketClient.runDelays (min (d * 2) 60) (es ++ true :: es') = _
        rw [ih (min (d * 2) 60)]
        rfl
      | true =>
        show WebSocketClient.runDelays 1 (es ++ true :: es') = _
        rw [ih 1]
        rfl
  · intro d es es'
    have hdrop : ∀ (d0 : ℕ),
        WebSocketClient.delayAfter d0 (es ++ [true]) =
        WebSocketClient.delayAfter d0 es := by
      intro d0
      rw [WebSocketClient.delayAfter, List.foldl_append]
      rfl
    induction es generalizing d with
    | nil =>
      rw [hdrop d]
      rfl
    | cons e es ih =>
      cases e with
      | false =>
        show d :: WebSocketClient.symbolLoopDelays (min (d * 2) 60) (es ++ true :: es') = _
        rw [ih (min (d * 2) 60) (fun d0 => by
          rw [WebSocketClient.delayAfter, List.foldl_append]; rfl)]
        show _ = d :: (WebSocketClient.symbolLoopDelays (min (d * 2) 60) es ++
          WebSocketClient.symbolLoopDelays
            (WebSocketClient.delayAfter d ((false :: es) ++ [true])) es')
        have he : WebSocketClient.delayAfter d ((false :: es) ++ [true]) =
            WebSocketClient.delayAfter (min (d * 2) 60) (es ++ [true]) := rfl
        rw [he, (by rw [WebSocketClient.delayAfter, List.foldl_append]; rfl :
          WebSocketClient.delayAfter (min (d * 2) 60) (es ++ [true]) =
          WebSocketClient.delayAfter (min (d * 2) 60) es),
          ← (by rw [WebSocketClient.delayAfter, List.foldl_append]; rfl :
          WebSocketClient.delayAfter (min (d * 2) 60) (es ++ [true]) =
          WebSocketClient.delayAfter (min (d * 2) 60) es)]
      | true =>
        show WebSocketClient.symbolLoopDelays d (es ++ true :: es') = _
        rw [ih d (fun d0 => by
          rw [WebSocketClient.delayAfter, List.foldl_append]; rfl)]
        rfl

/-- C3 witness: the cap part of the backoff theorem at delay 1 and a
two-failure streak — both modes sleep at most 60s. -/
theorem reconnect_backoff_delays_witness :
    (1 : ℕ) ≤ 60 ∧
    ((∀ x ∈ WebSocketClient.runDelays 1 [false, false], x ≤ 60) ∧
     (∀ x ∈ WebSocketClient.symbolLoopDelays 1 [false, false], x ≤ 60)) :=
  ⟨by norm_num, reconnect_backoff_delays.2.2.1 1 [false, false] (by norm_num)⟩

/-- C3 counterexample: outcomes fail, fail, success, fail.  The combined
loop sleeps 1, 2 and then — after the successful connect reset — 1; the
per-symbol loop sleeps 1, 2 and then 4: its local `delay` variable kept
the doubled value across the success, so the next failure sequence does
NOT restart at 1s as the claim requires for both modes. -/
theorem per_symbol_backoff_not_reset_counterexample :
    WebSocketClient.symbolLoopDelays 1 [false, false, true, false] = [1, 2, 4] ∧
    WebSocketClient.runDelays 1 [false, false, true, false] = [1, 2, 1] ∧
    (4 : ℕ) ≠ 1 := by
  refine ⟨by decide, by decide, by decide⟩

namespace WebSocketHandler

/-- The send loop partitions the registry into delivered and failed
connections, keeping iteration order. -/
lemma sendLoop_eq (conns : List Conn) (fails : Conn → Bool) :
    sendLoop conns fails =
      (conns.filter (fun c => !fails c), conns.filter fails) := by
  suffices h : ∀ (acc : List Conn × List Conn),
      conns.foldl
        (fun acc c => if fails c then (acc.1, acc.2 ++ [c]) else (acc.1 ++ [c], acc.2))
        acc =
      (acc.1 ++ conns.filter (fun c => !fails c), acc.2 ++ conns.filter fails) by
    have := h ([], [])
    simpa [sendLoop] using this
  induction conns with
  | nil => intro acc; simp
  | cons c cs ih =>
    intro acc
    cases hf : fails c with
    | true =>
      rw [List.foldl_cons, if_pos hf, ih (acc.1, acc.2 ++ [c])]
      simp [List.filter_cons, hf]
    | false =>
      rw [List.foldl_cons,
          if_neg (by rw [hf]; exact Bool.false_ne_true),
          ih (acc.1 ++ [c], acc.2)]
      simp [List.filter_cons, hf]

/-- The registry left by `broadcast_tick` is exactly the connections
whose send did not fail. -/
lemma broadcast_tick_registry (reg : Registry) (fails : Conn → Bool) :
    (broadcast_tick reg fails).2.2 = reg.filter (fun c => !fails c) := by
  show reg.filter (fun c => ¬ c ∈ (sendLoop reg fails).2) = _
  rw [sendLoop_eq]
  refine List.filter_congr (fun c hc => ?_)
  cases hf : fails c with
  | true =>
    have hmem : c ∈ reg.filter fails := List.mem_filter.mpr ⟨hc, hf⟩
    simp [hmem]
  | false =>
    have hmem : ¬ c ∈ reg.filter fails := by
      intro h
      have := (List.mem_filter.mp h).2
      rw [hf] at this
      cases this
    simp [hmem]

end WebSocketHandler

/-- C5 (amended): on both broadcast paths a failing subscriber never
prevents delivery to any non-failing subscriber of the same call; on the
TICK path any subscriber whose send fails — even once — is removed from
the registry and hence not attempted on later broadcasts; but the ALERT
path swallows failures and leaves the registry unchanged, so a
subscriber failing only on alert broadcasts is never removed. -/
theorem broadcast_failure_isolation :
    (∀ (reg : WebSocketHandler.Registry) (fails : WebSocketHandler.Conn → Bool)
       (c : WebSocketHandler.Conn),
      c ∈ reg → fails c = false →
      c ∈ (WebSocketHandler.broadcast_tick reg fails).1 ∧
      c ∈ (WebSocketHandler.broadcast_alert reg fails).1) ∧
    (∀ (reg : WebSocketHandler.Registry) (fails : WebSocketHandler.Conn → Bool),
      (WebSocketHandler.broadcast_tick reg fails).2.2 =
        reg.filter (fun c => !fails c)) ∧
    (∀ (reg : WebSocketHandler.Registry) (fails : WebSocketHandler.Conn → Bool)
       (c : WebSocketHandler.Conn),
      fails c = true → ¬ c ∈ (WebSocketHandler.broadcast_tick reg fails).2.2) ∧
    (∀ (reg : WebSocketHandler.Registry) (fails : WebSocketHandler.Conn → Bool),
      (WebSocketHandler.broadcast_alert reg fails).2 = reg) := by
  refine ⟨?_, WebSocketHandler.broadcast_tick_registry, ?_, fun reg fails => rfl⟩
  · intro reg fails c hc hf
    have hd : c ∈ (WebSocketHandler.sendLoop reg fails).1 := by
      rw [WebSocketHandler.sendLoop_eq]
      exact List.mem_filter.mpr ⟨hc, by rw [hf]; rfl⟩
    exact ⟨hd, hd⟩
  · intro reg fails c hf hmem
    rw [WebSocketHandler.broadcast_tick_registry] at hmem
    have := (List.mem_filter.mp hmem).2
    rw [hf] at this
    cases this

/-- C5 witness: with registry {5, 7} and subscriber 7 failing, 5 still
receives both the tick and the alert broadcast. -/
theorem broadcast_failure_isolation_witness :
    (5 : ℕ) ∈ [5, 7] ∧ ((fun c => c == 7) 5) = false ∧
    (5 ∈ (WebSocketHandler.broadcast_tick [5, 7] (fun c => c == 7)).1 ∧
     5 ∈ (WebSocketHandler.broadcast_alert [5, 7] (fun c => c == 7)).1) :=
  ⟨by decide, by decide,
   broadcast_failure_isolation.1 [5, 7] (fun c => c == 7) 5 (by decide) (by decide)⟩

/-- C5 counterexample: subscriber 7's send fails on every alert
broadcast, yet after a failed alert broadcast it is still in the
registry and its send is attempted — and fails — again on the next
alert broadcast, contradicting "a subscriber whose send repeatedly
fails is removed from the registry, so it is not attempted on
subsequent broadcasts". -/
theorem failing_alert_subscriber_never_removed :
    ((fun c => c == 7) 7) = true ∧
    (WebSocketHandler.sendLoop [7] (fun c => c == 7)).2 = [7] ∧
    (WebSocketHandler.broadcast_alert [7] (fun c => c == 7)).2 = [7] ∧
    (WebSocketHandler.sendLoop
      (WebSocketHandler.broadcast_alert [7] (fun c => c == 7)).2
      (fun c => c == 7)).2 = [7] := by
  refine ⟨by decide, by decide, by decide, by decide⟩

namespace DataProcessor

/-- Stamping `processed_at` does not change which required field is
missing. -/
lemma firstMissing_processed_at (t : RawTick) (x : Option String) :
    firstMissing { t with processed_at := x } = firstMissing t := rfl

/-- A valid tick is buffered, published, stored and counted. -/
lemma process_tick_valid (s : ProcState) (t : RawTick) (now : String) (sym : String)
    (hsym : t.symbol = some sym)
    (hv : firstMissing t = none) :
    process_tick s t now =
      ({ s with
          tick_buffer := bufferAppend s.tick_buffer sym { t with processed_at := some now }
          published := s.published ++ [{ t with processed_at := some now }]
          stored := s.stored ++ [{ t with processed_at := some now }]
          ticks_processed := s.ticks_processed + 1 },
       Except.ok { t with processed_at := some now }) := by
  obtain ⟨tsym, tp, tq, tt, tpa⟩ := t
  have hsym2 : tsym = some sym := hsym
  subst hsym2
  have hv1 : firstMissing (RawTick.mk (some sym) tp tq tt (some now)) = none := hv
  simp [process_tick, hv1]

end DataProcessor

/-- C6: a raw tick missing one of {symbol, price, quantity, timestamp}
is rejected by `process_tick`: the call reports a `ValueError` naming
the first missing field, increments only the error counter, and leaves
the per-symbol buffer, the published tick stream and the recent-window
store untouched; the failure is non-fatal — a subsequent valid tick is
accepted, counted and forwarded normally. -/
theorem invalid_tick_rejected_not_forwarded :
    ∀ (s : DataProcessor.ProcState) (t : DataProcessor.RawTick)
      (now : String) (f : String),
      DataProcessor.firstMissing t = some f →
      (DataProcessor.process_tick s t now).2 =
        Except.error ("Missing required field: " ++ f) ∧
      (DataProcessor.process_tick s t now).1.errors = s.errors + 1 ∧
      (DataProcessor.process_tick s t now).1.ticks_processed = s.ticks_processed ∧
      (DataProcessor.process_tick s t now).1.tick_buffer = s.tick_buffer ∧
      (DataProcessor.process_tick s t now).1.published = s.published ∧
      (DataProcessor.process_tick s t now).1.stored = s.stored ∧
      (∀ (t' : DataProcessor.RawTick) (now' : String) (sym : String),
        t'.symbol = some sym →
        DataProcessor.firstMissing t' = none →
        (DataProcessor.process_tick (DataProcessor.process_tick s t now).1 t' now').2 =
          Except.ok { t' with processed_at := some now' } ∧
        (DataProcessor.process_tick (DataProcessor.process_tick s t now).1 t' now').1.ticks_processed =
          s.ticks_processed + 1 ∧
        (DataProcessor.process_tick (DataProcessor.process_tick s t now).1 t' now').1.published =
          s.published ++ [{ t' with processed_at := some now' }]) := by
  intro s t now f hm
  have hm1 : DataProcessor.firstMissing { t with processed_at := some now } = some f := by
    rw [DataProcessor.firstMissing_processed_at]; exact hm
  have hrej : DataProcessor.process_tick s t now =
      ({ s with errors := s.errors + 1 },
       Except.error ("Missing required field: " ++ f)) := by
    simp [DataProcessor.process_tick, hm1]
  rw [hrej]
  refine ⟨rfl, rfl, rfl, rfl, rfl, rfl, ?_⟩
  intro t' now' sym hsym hv
  rw [DataProcessor.process_tick_valid { s with errors := s.errors + 1 } t' now' sym hsym hv]
  exact ⟨rfl, rfl, rfl⟩

/-- C6 witness: a tick without a price is rejected from the fresh
processor (error counter 1, nothing forwarded), and a following complete
tick is processed (counter 1, tick published). -/
theorem invalid_tick_rejected_not_forwarded_witness :
    DataProcessor.firstMissing
      (DataProcessor.RawTick.mk (some "BTCUSDT") none (some 1) (some 1700000000000) none) =
      some "price" ∧
    (DataProcessor.RawTick.mk (some "BTCUSDT") (some 50000) (some 1)
      (some 1700000000000) none).symbol = some "BTCUSDT" ∧
    DataProcessor.firstMissing
      (DataProcessor.RawTick.mk (some "BTCUSDT") (some 50000) (some 1)
        (some 1700000000000) none) = none ∧
    ((DataProcessor.process_tick (DataProcessor.ProcState.mk [] [] [] 0 0)
        (DataProcessor.RawTick.mk (some "BTCUSDT") none (some 1) (some 1700000000000) none)
        "T0").2 = Except.error "Missing required field: price" ∧
     (DataProcessor.process_tick (DataProcessor.ProcState.mk [] [] [] 0 0)
        (DataProcessor.RawTick.mk (some "BTCUSDT") none (some 1) (some 1700000000000) none)
        "T0").1.errors = 0 + 1) := by
  have h := invalid_tick_rejected_not_forwarded (DataProcessor.ProcState.mk [] [] [] 0 0)
    (DataProcessor.RawTick.mk (some "BTCUSDT") none (some 1) (some 1700000000000) none)
    "T0" "price" rfl
  exact ⟨rfl, rfl, rfl, h.1, h.2.1⟩

namespace AlertManager

/-- One history step under the cap: append, and when the cap is passed
drop exactly the oldest entry. -/
lemma historyStep_closed (h : List Alert) (a : Alert) (hle : h.length ≤ 100) :
    historyStep h a = (h ++ [a]).drop (h.length + 1 - 100) ∧
    (historyStep h a).length ≤ 100 := by
  rw [historyStep]
  by_cases hc : (h ++ [a]).length > 100
  · rw [if_pos hc]
    have hlen : (h ++ [a]).length = h.length + 1 := by simp
    constructor
    · have : h.length + 1 - 100 = 1 := by omega
      rw [this]
    · rw [List.length_drop]
      omega
  · rw [if_neg hc]
    have hlen : (h ++ [a]).length = h.length + 1 := by simp
    constructor
    · have : h.length + 1 - 100 = 0 := by omega
      rw [this, List.drop_zero]
    · omega

/-- Folding triggered alerts into a capped history keeps exactly the
most recent 100, in order. -/
lemma foldl_historyStep (as : List Alert) :
    ∀ h : List Alert, h.length ≤ 100 →
      List.foldl historyStep h as = (h ++ as).drop (h.length + as.length - 100) := by
  induction as with
  | nil =>
    intro h hle
    have hz : h.length + ([] : List Alert).length - 100 = 0 := by simp; omega
    rw [hz, List.drop_zero, List.append_nil, List.foldl_nil]
  | cons a as ih =>
    intro h hle
    obtain ⟨hstep, hstepLen⟩ := historyStep_closed h a hle
    rw [List.foldl_cons, ih (historyStep h a) hstepLen, hstep]
    have hd1 : h.length + 1 - 100 ≤ (h ++ [a]).length := by simp; omega
    rw [← List.drop_append_of_le_length hd1, List.drop_drop]
    have hlen2 : ((h ++ [a]).drop (h.length + 1 - 100)).length =
        h.length + 1 - (h.length + 1 - 100) := by
      rw [List.length_drop]; simp
    rw [hlen2]
    have harr : (h ++ [a]) ++ as = h ++ (a :: as) := by simp
    rw [harr]
    congr 1
    have : (a :: as).length = as.length + 1 := by simp
    omega

end AlertManager

/-- C7: starting from the fresh manager's empty history, after any
sequence of triggered alerts the in-memory history is exactly the most
recent (at most 100) alerts in trigger order — the cap of 100 is never
exceeded and evictions remove the oldest entry first. -/
theorem alert_history_bounded :
    ∀ as : List AlertManager.Alert,
      AlertManager.historyRun as = as.drop (as.length - 100) ∧
      (AlertManager.historyRun as).length ≤ 100 := by
  intro as
  have h := AlertManager.foldl_historyStep as [] (by simp)
  rw [AlertManager.historyRun, h]
  constructor
  · simp
  · rw [List.length_drop]
    simp
    omega

namespace Database

/-- `sameKey` is reflexive. -/
lemma sameKey_refl (r : Row) : sameKey r r = true := by
  simp [sameKey]

/-- Rows with the keys of two key-equal rows agree on key equality. -/
lemma sameKey_congr (x r r' : Row) (hk : sameKey r r' = true) :
    sameKey x r = sameKey x r' := by
  rcases of_decide_eq_true hk with ⟨hs, ht⟩
  simp [sameKey, hs, ht]

end Database

namespace RedisManager

/-- `zadd` of a member already present only refreshes its score, so the
same (member, score) call is idempotent. -/
lemma zadd_idem (zs : ZSet) (m : OhlcPayload) (s : ℤ) :
    zadd (zadd zs m s) m s = zadd zs m s := by
  induction zs with
  | nil => simp [zadd]
  | cons p ps ih =>
    obtain ⟨m0, s0⟩ := p
    by_cases hm : m0 = m
    · simp [zadd, hm]
    · simp [zadd, hm, ih]

end RedisManager

/-- C8 (amended): in the SQLite store (`INSERT OR REPLACE` under
`UNIQUE(symbol, timestamp)`), a second write with the same key fully
supersedes the first — the table is as if only the second write
happened, and exactly one row with that key remains, holding the second
write's values; writing the identical bar twice is idempotent.  In the
Redis sorted-set store, `zadd` of the identical serialized bar is
idempotent (same member, score refreshed). -/
theorem ohlc_store_upsert :
    (∀ (tbl : List Database.Row) (r r' : Database.Row),
      Database.sameKey r r' = true →
      Database.insert_ohlc (Database.insert_ohlc tbl r) r' =
        Database.insert_ohlc tbl r' ∧
      (Database.insert_ohlc (Database.insert_ohlc tbl r) r').filter
        (fun x => Database.sameKey x r') = [r'] ∧
      Database.insert_ohlc (Database.insert_ohlc tbl r) r =
        Database.insert_ohlc tbl r) ∧
    (∀ (zs : RedisManager.ZSet) (m : RedisManager.OhlcPayload) (s : ℤ),
      RedisManager.zadd (RedisManager.zadd zs m s) m s =
        RedisManager.zadd zs m s) ∧
    (∀ p : RedisManager.OhlcPayload,
      RedisManager.store_ohlc (RedisManager.store_ohlc [] p) p =
        RedisManager.store_ohlc [] p) := by
  have hsingle : ∀ (tbl : List Database.Row) (q : Database.Row),
      (Database.insert_ohlc tbl q).filter (fun x => Database.sameKey x q) = [q] := by
    intro tbl q
    rw [Database.insert_ohlc, List.filter_append]
    have h1 : (tbl.filter (fun x => ¬ Database.sameKey x q)).filter
        (fun x => Database.sameKey x q) = [] := by
      rw [List.filter_filter]
      refine List.filter_eq_nil_iff.mpr (fun x _ => ?_)
      by_cases hx : Database.sameKey x q = true
      · simp [hx]
      · simp [hx]
    have h2 : ([q] : List Database.Row).filter (fun x => Database.sameKey x q) = [q] := by
      simp [Database.sameKey_refl]
    rw [h1, h2, List.nil_append]
  have hsup : ∀ (tbl : List Database.Row) (r r' : Database.Row),
      Database.sameKey r r' = true →
      Database.insert_ohlc (Database.insert_ohlc tbl r) r' =
        Database.insert_ohlc tbl r' := by
    intro tbl r r' hk
    rw [Database.insert_ohlc, Database.insert_ohlc, List.filter_append,
        List.filter_filter]
    have hr : ([r] : List Database.Row).filter (fun x => ¬ Database.sameKey x r') = [] := by
      have : Database.sameKey r r' = true := hk
      simp [← Database.sameKey_congr r r r' hk, Database.sameKey_refl]
    rw [hr, List.append_nil]
    congr 1
    refine List.filter_congr (fun x _ => ?_)
    rw [Database.sameKey_congr x r r' hk]
    by_cases hx : Database.sameKey x r' = true
    · simp [hx]
    · simp [hx]
  refine ⟨?_, RedisManager.zadd_idem, ?_⟩
  · intro tbl r r' hk
    refine ⟨hsup tbl r r' hk, ?_, hsup tbl r r (Database.sameKey_refl r)⟩
    rw [hsup tbl r r' hk]
    exact hsingle tbl r'
  · intro p
    show RedisManager.zremAllButLast
        (RedisManager.zadd (RedisManager.store_ohlc [] p) p p.timestamp) 100 = _
    have h0 : RedisManager.store_ohlc [] p = [(p, (p.timestamp : ℤ))] := by
      simp [RedisManager.store_ohlc, RedisManager.zadd, RedisManager.zremAllButLast,
        RedisManager.byRank, RedisManager.insertByScore]
    rw [h0]
    simp [RedisManager.zadd, RedisManager.zremAllButLast, RedisManager.byRank,
      RedisManager.insertByScore]

/-- C8 witness: two writes of the same finalized bar for
(symbol "BTCUSDT", timestamp 60000) into the SQLite table leave exactly
that one row. -/
theorem ohlc_store_upsert_witness :
    Database.sameKey (Database.Row.mk "BTCUSDT" 1 2 0 1 5 60000 3)
      (Database.Row.mk "BTCUSDT" 1 2 0 1 5 60000 3) = true ∧
    (Database.insert_ohlc
        (Database.insert_ohlc [] (Database.Row.mk "BTCUSDT" 1 2 0 1 5 60000 3))
        (Database.Row.mk "BTCUSDT" 1 2 0 1 5 60000 3)).filter
      (fun x => Database.sameKey x (Database.Row.mk "BTCUSDT" 1 2 0 1 5 60000 3)) =
      [Database.Row.mk "BTCUSDT" 1 2 0 1 5 60000 3] :=
  ⟨by decide,
   (ohlc_store_upsert.1 [] (Database.Row.mk "BTCUSDT" 1 2 0 1 5 60000 3)
      (Database.Row.mk "BTCUSDT" 1 2 0 1 5 60000 3) (by decide)).2.1⟩

/-- C8 counterexample: two finalized bars for the same
(symbol, timestamp) key but different close values.  The Redis store
keys sorted-set members by the full serialized payload, so the second
`store_ohlc` ADDS a second member at the same score instead of
overwriting: two stored bars remain for the key, refuting "exactly one
stored bar for that key". -/
theorem redis_store_ohlc_duplicates :
    (RedisManager.OhlcPayload.mk 1 2 0 1 5 3 60000).timestamp =
      (RedisManager.OhlcPayload.mk 1 2 0 2 5 3 60000).timestamp ∧
    RedisManager.OhlcPayload.mk 1 2 0 1 5 3 60000 ≠
      RedisManager.OhlcPayload.mk 1 2 0 2 5 3 60000 ∧
    (RedisManager.store_ohlc
        (RedisManager.store_ohlc [] (RedisManager.OhlcPayload.mk 1 2 0 1 5 3 60000))
        (RedisManager.OhlcPayload.mk 1 2 0 2 5 3 60000)).length = 2 := by
  refine ⟨rfl, by decide, by decide⟩

namespace AlertManager

/-- Any alert dict built by `trigger_alert` carries exactly the keys
rule_name, rule_condition, symbol, triggered_value, threshold, message,
timestamp — in particular no `severity` entry. -/
lemma trigger_alert_no_severity (rule : Alerting.AlertRule) (data : Alerting.Snapshot)
    (ts : ℕ) (a : Alert) (h : trigger_alert rule data ts = some a) :
    Alert.lookup a "severity" = Option.none := by
  cases hf : Alerting.format_message rule data with
  | none =>
    simp only [trigger_alert, hf] at h
    exact Option.noConfusion h
  | some msg =>
    simp only [trigger_alert, hf, Option.some.injEq] at h
    rw [← h]
    rfl

/-- The z-score rules fire on the snapshot `{zscore: 5/2}`. -/
lemma zscore_check_half5 : Alerting.zscore_above_threshold [("zscore", (5 : ℚ)/2)] 2 = true := by
  show decide (|Alerting.getD [("zscore", (5 : ℚ)/2)] "zscore" 0| > 2) = true
  rw [show Alerting.getD [("zscore", (5 : ℚ)/2)] "zscore" 0 = 5/2 from rfl,
    decide_eq_true_eq, abs_of_pos (by norm_num : (0:ℚ) < 5/2)]
  norm_num

/-- The z-score rules fire on the snapshot `{zscore: 7/2}`. -/
lemma zscore_check_half7 : Alerting.zscore_above_threshold [("zscore", (7 : ℚ)/2)] 2 = true := by
  show decide (|Alerting.getD [("zscore", (7 : ℚ)/2)] "zscore" 0| > 2) = true
  rw [show Alerting.getD [("zscore", (7 : ℚ)/2)] "zscore" 0 = 7/2 from rfl,
    decide_eq_true_eq, abs_of_pos (by norm_num : (0:ℚ) < 7/2)]
  norm_num

end AlertManager

/-- C9 counterexample: one check cycle of the default `High Z-Score`
rule (condition `abs(zscore) > 2.0`) against the snapshot
`{zscore: 2.5}`.  The rule fires, but `format_message` raises `KeyError`
— its template references `{symbol1}`/`{symbol2}`, absent from the
snapshot — before any alert is built, so the cycle aborts and emits ZERO
alerts, not exactly one as claimed. -/
theorem default_zscore_rule_keyerror :
    AlertManager.highZScoreRule.check [("zscore", (5 : ℚ)/2)] = true ∧
    Alerting.format_message AlertManager.highZScoreRule [("zscore", (5 : ℚ)/2)] =
      Option.none ∧
    AlertManager.check_all_rules [AlertManager.highZScoreRule]
      [("zscore", (5 : ℚ)/2)] 7 = ([], false) ∧
    (AlertManager.check_all_rules [AlertManager.highZScoreRule]
      [("zscore", (5 : ℚ)/2)] 7).1.length ≠ 1 := by
  have hcheck : AlertManager.highZScoreRule.check [("zscore", (5 : ℚ)/2)] = true :=
    AlertManager.zscore_check_half5
  have htrig : AlertManager.trigger_alert AlertManager.highZScoreRule
      [("zscore", (5 : ℚ)/2)] 7 = Option.none := rfl
  have hrun : AlertManager.check_all_rules [AlertManager.highZScoreRule]
      [("zscore", (5 : ℚ)/2)] 7 = ([], false) := by
    show AlertManager.checkRulesGo [("zscore", (5 : ℚ)/2)] 7
      [AlertManager.highZScoreRule] = ([], false)
    rw [AlertManager.checkRulesGo, if_pos hcheck, htrig]
  refine ⟨hcheck, rfl, hrun, ?_⟩
  rw [hrun]
  norm_num

/-- C9 (amended): a z-score rule with the same condition and threshold
but a template referencing only available fields emits exactly one Alert
per cycle for each snapshot; those Alerts carry no `severity` key at
all.  The severity grading the scenario describes lives in
`StrategyEngine.check_alerts`, where zscore 2.5 yields one alert of
severity `medium` and 3.5 one of severity `high` — a strictly higher
severity. -/
theorem zscore_alerts_severity :
    (∃ a1, AlertManager.check_all_rules [AlertManager.plainZScoreRule]
        [("zscore", (5 : ℚ)/2)] 7 = ([a1], true) ∧
      AlertManager.Alert.lookup a1 "severity" = Option.none) ∧
    (∃ a2, AlertManager.check_all_rules [AlertManager.plainZScoreRule]
        [("zscore", (7 : ℚ)/2)] 7 = ([a2], true) ∧
      AlertManager.Alert.lookup a2 "severity" = Option.none) ∧
    (StrategyEngine.check_alerts ((5 : ℚ)/2) 50 1).map (fun a => a.severity) =
      ["medium"] ∧
    (StrategyEngine.check_alerts ((7 : ℚ)/2) 50 1).map (fun a => a.severity) =
      ["high"] ∧
    StrategyEngine.severityRank "medium" < StrategyEngine.severityRank "high" := by
  have habs5 : |(5:ℚ)/2| = 5/2 := abs_of_pos (by norm_num)
  have habs7 : |(7:ℚ)/2| = 7/2 := abs_of_pos (by norm_num)
  have habs1 : |(1:ℚ)| = 1 := abs_one
  refine ⟨?_, ?_, ?_, ?_, by norm_num [StrategyEngine.severityRank]⟩
  · obtain ⟨a1, ha1⟩ : ∃ a, AlertManager.trigger_alert AlertManager.plainZScoreRule
        [("zscore", (5 : ℚ)/2)] 7 = some a := ⟨_, rfl⟩
    refine ⟨a1, ?_, AlertManager.trigger_alert_no_severity _ _ _ _ ha1⟩
    show AlertManager.checkRulesGo [("zscore", (5 : ℚ)/2)] 7
      [AlertManager.plainZScoreRule] = ([a1], true)
    have hchk : AlertManager.plainZScoreRule.check [("zscore", (5 : ℚ)/2)] = true :=
      AlertManager.zscore_check_half5
    rw [AlertManager.checkRulesGo, if_pos hchk, ha1]
    rfl
  · obtain ⟨a2, ha2⟩ : ∃ a, AlertManager.trigger_alert AlertManager.plainZScoreRule
        [("zscore", (7 : ℚ)/2)] 7 = some a := ⟨_, rfl⟩
    refine ⟨a2, ?_, AlertManager.trigger_alert_no_severity _ _ _ _ ha2⟩
    show AlertManager.checkRulesGo [("zscore", (7 : ℚ)/2)] 7
      [AlertManager.plainZScoreRule] = ([a2], true)
    have hchk : AlertManager.plainZScoreRule.check [("zscore", (7 : ℚ)/2)] = true :=
      AlertManager.zscore_check_half7
    rw [AlertManager.checkRulesGo, if_pos hchk, ha2]
    rfl
  · norm_num [StrategyEngine.check_alerts, habs5, habs1]
  · norm_num [StrategyEngine.check_alerts, habs7, habs1]
